import Mathlib

/-!
Shallow embedding of the `dependency-tracker` script (`src/index.ts`) and
verification of its specification.

JavaScript strings are modelled as lists of characters (`Str`).  The
environment-dependent primitives of the JavaScript runtime (the standard
`new Date(string)` parser, the local-calendar `new Date(y, m, d, h)`
constructor, the clock, the network and the file system) are fields of an
explicit `Env` record; everything else is translated directly from the
source.  Machine integers do not occur: all arithmetic in the script is on
small counters and millisecond timestamps, modelled as `Nat`/`Int`.
-/

/-- Character-list model of a JavaScript string. -/
abbrev Str := List Char

/-- Interpret a Lean string literal in the character-list model. -/
def str (s : String) : Str := s.data

/-- JavaScript `String.prototype.includes`: `sub` occurs contiguously in `s`.
(Code units versus code points only differ on astral characters, which the
script never compares.) -/
def jsIncludes (s sub : Str) : Bool :=
  match s with
  | [] => sub.isEmpty
  | _ :: cs => sub.isPrefixOf s || jsIncludes cs sub

/-- JavaScript `String.prototype.trimStart`. -/
def jsTrimLeft (s : Str) : Str := s.dropWhile Char.isWhitespace

/-- JavaScript `String.prototype.trimEnd`. -/
def jsTrimRight (s : Str) : Str := (s.reverse.dropWhile Char.isWhitespace).reverse

/-- JavaScript `String.prototype.trim`. -/
def jsTrim (s : Str) : Str := jsTrimRight (jsTrimLeft s)

/-- Fuelled scanner implementing `String.prototype.split` with a non-empty
separator: it emits the accumulated piece whenever `sep` is a prefix of the
rest, consuming the separator.  One unit of fuel is spent per step and every
step consumes at least one character, so fuel `s.length` is always enough;
the fuel-exhausted case is unreachable under that call pattern. -/
def jsSplitGo (sep : Str) : Nat → Str → Str → List Str
  | 0, rest, acc => [acc.reverse ++ rest]
  | _ + 1, [], acc => [acc.reverse]
  | n + 1, c :: cs, acc =>
    if sep.isPrefixOf (c :: cs) then
      acc.reverse :: jsSplitGo sep n (List.drop (sep.length - 1) cs) []
    else
      jsSplitGo sep n cs (c :: acc)

/-- JavaScript `String.prototype.split` with a string separator.  An empty
separator splits into single characters, as in JavaScript. -/
def jsSplit (s sep : Str) : List Str :=
  if sep.isEmpty then s.map (fun c => [c]) else jsSplitGo sep s.length s []

/-- JavaScript `String.prototype.replace` with a *string* pattern: only the
first occurrence is replaced; the string is returned unchanged when the
pattern does not occur. -/
def jsReplaceFirst (pat repl : Str) : Str → Str
  | [] => if pat.isEmpty then repl else []
  | c :: cs =>
    if pat.isPrefixOf (c :: cs) then repl ++ List.drop pat.length (c :: cs)
    else c :: jsReplaceFirst pat repl cs

/-- JavaScript `.replace(/\*/g, "")`: delete every asterisk. -/
def jsStripStars (s : Str) : Str := s.filter (fun c => c ≠ '*')

/-- JavaScript `String.prototype.toUpperCase` (ASCII; the allow-list the
script uppercases is pure ASCII). -/
def jsToUpper (s : Str) : Str := s.map Char.toUpper

/-- Characters `encodeURIComponent` leaves unescaped. -/
def uriUnreserved (c : Char) : Bool :=
  c.isAlphanum || c = '-' || c = '_' || c = '.' || c = '!' || c = '~' ||
  c = '*' || c = '\'' || c = '(' || c = ')'

/-- Uppercase hexadecimal digit, as produced by `encodeURIComponent`. -/
def hexDigit (n : Nat) : Char :=
  if n < 10 then Char.ofNat (48 + n) else Char.ofNat (55 + n)

/-- UTF-8 bytes of one character. -/
def utf8Bytes (c : Char) : List Nat :=
  let n := c.toNat
  if n < 128 then [n]
  else if n < 2048 then [192 + n / 64, 128 + n % 64]
  else if n < 65536 then [224 + n / 4096, 128 + n / 64 % 64, 128 + n % 64]
  else [240 + n / 262144, 128 + n / 4096 % 64, 128 + n / 64 % 64, 128 + n % 64]

/-- JavaScript `encodeURIComponent`: percent-encode the UTF-8 bytes of every
character outside the unreserved set, with uppercase hex digits. -/
def encodeURIComponent (s : Str) : Str :=
  s.flatMap (fun c =>
    if uriUnreserved c then [c]
    else (utf8Bytes c).flatMap (fun b => ['%', hexDigit (b / 16), hexDigit (b % 16)]))

/-- Default comparator of `Array.prototype.sort`: lexicographic comparison of
the two strings (`≤`).  JavaScript compares UTF-16 code units; on the
basic-multilingual-plane characters occurring in package names this agrees
with code-point comparison. -/
def jsStrLe : Str → Str → Bool
  | [], _ => true
  | _ :: _, [] => false
  | a :: as, b :: bs =>
    if a.toNat < b.toNat then true
    else if b.toNat < a.toNat then false
    else jsStrLe as bs

/-- `jsStrLe` as a binary relation, for use with `List.insertionSort`. -/
def jsStrLeRel (a b : Str) : Prop := jsStrLe a b = true

instance : DecidableRel jsStrLeRel := fun a b =>
  inferInstanceAs (Decidable (jsStrLe a b = true))

/-- Digit predicate of the regex class `\d` (ASCII digits). -/
def isDigitChar (c : Char) : Bool := c.isDigit

/-- Numeric value of a non-empty decimal digit string (`parseInt`). -/
def digitsToNat (ds : Str) : Nat :=
  ds.foldl (fun acc c => acc * 10 + (c.toNat - 48)) 0

/-- Deterministic matcher for the regex `/(\d+)\.\s*(\d+)\.\s*(\d+)\s*(\d+)/`
anchored at the start of `s`, returning the four captured numbers
(day, month, year, hour).  Backtracking is resolved statically: after a
maximal digit run a literal `.` either follows or no shorter run can help
(shorter runs end at a digit, not `.`); likewise after a maximal `\s*` run a
digit either follows or no shorter run can help.  The only live backtrack is
between the third and fourth group when they are separated by no whitespace:
the regex engine then gives the fourth group exactly the last digit of the
run and the third group the rest. -/
def matchDMYHAt (s : Str) : Option (Nat × Nat × Nat × Nat) :=
  let d1 := s.takeWhile isDigitChar
  if d1.isEmpty then none else
  match s.drop d1.length with
  | '.' :: r1 =>
    let r2 := r1.dropWhile Char.isWhitespace
    let d2 := r2.takeWhile isDigitChar
    if d2.isEmpty then none else
    match r2.drop d2.length with
    | '.' :: r3 =>
      let r4 := r3.dropWhile Char.isWhitespace
      let d3 := r4.takeWhile isDigitChar
      if d3.isEmpty then none else
      let r5 := r4.drop d3.length
      let r6 := r5.dropWhile Char.isWhitespace
      let d4 := r6.takeWhile isDigitChar
      if ¬ d4.isEmpty then
        some (digitsToNat d1, digitsToNat d2, digitsToNat d3, digitsToNat d4)
      else if 2 ≤ d3.length then
        some (digitsToNat d1, digitsToNat d2, digitsToNat d3.dropLast,
          digitsToNat (d3.drop (d3.length - 1)))
      else none
    | _ => none
  | _ => none

/-- Unanchored search for the date regex: try every start position from the
left and return the first match, as `String.prototype.match` does. -/
def regexFindDMYH : Str → Option (Nat × Nat × Nat × Nat)
  | [] => none
  | c :: cs =>
    match matchDMYHAt (c :: cs) with
    | some g => some g
    | none => regexFindDMYH cs

/-- Registry response body (interface `NpmPackageInfo`). -/
structure NpmPackageInfo where
  license : Option Str
  description : Option Str
deriving Repr, DecidableEq

/-- One record parsed back out of a previous report
(interface `CachedDependencyInfo`). -/
structure CachedDependencyInfo where
  name : Str
  npmLink : Str
  licenseLink : Str
  description : Str
  isPermissive : Bool
  lastUpdated : Str
deriving Repr, DecidableEq

/-- Project manifest (interface `PackageJson`).  Only the keys of the two
mappings are ever used by the script, so just the names are modelled. -/
structure PackageJson where
  dependencies : List Str
  devDependencies : List Str
deriving Repr, DecidableEq

/-- Ambient JavaScript runtime: Date parsing and construction, the clock,
the network and the two input files. -/
structure Env where
  /-- `new Date(s)` for a string `s`: `none` models an Invalid Date. -/
  jsParse : Str → Option Int
  /-- `new Date(year, monthIndex, day, hour)` in the host's local calendar;
  `none` models an out-of-range (NaN) date. -/
  mkDate : Int → Int → Int → Int → Option Int
  /-- The `oneWeekAgo` timestamp the run computes once from the clock. -/
  oneWeekAgo : Int
  /-- `new Date().toLocaleString()` stamped on freshly fetched records. -/
  nowLocaleString : Str
  /-- `new Date().toLocaleString()` stamped in the report header. -/
  genLocaleString : Str
  /-- The registry: `none` models any network failure, non-2xx status or
  malformed response body. -/
  registry : Str → Option NpmPackageInfo
  /-- The parsed manifest; `none` models an unreadable file or malformed
  JSON (both throw before any dependency is processed). -/
  manifest : Option PackageJson
  /-- Raw text of the previous report; `none` models an unreadable file. -/
  prevReport : Option Str

/-- The fixed allow-list `permissiveLicenses` of the script. -/
def permissiveLicenses : List Str :=
  [str ("MIT"), str ("BSD"), str ("Apache"), str ("ISC"),
   str ("Unlicense"), str ("CC0"), str ("WTFPL"), str ("Zlib")]

/-- `isPermissiveLicense`: case-insensitive substring test against the
allow-list, by uppercasing both sides. -/
def isPermissiveLicense (license : Str) : Bool :=
  permissiveLicenses.any (fun pl => jsIncludes (jsToUpper license) (jsToUpper pl))

/-- `fetchPackageInfo`: one registry request; every failure is caught and
degraded to an empty `NpmPackageInfo` (no license, no description). -/
def fetchPackageInfo (env : Env) (packageName : Str) : NpmPackageInfo :=
  match env.registry packageName with
  | some info => info
  | none => { license := none, description := none }

/-- `formatDependencyInfo`: the markdown block of one dependency. -/
def formatDependencyInfo (dep npmLink licenseLink description : Str)
    (isPermissive : Bool) (lastUpdated : Str) : Str :=
  let warningMark := if isPermissive then [] else str ("⚠️ ")
  let warningNote :=
    if isPermissive then []
    else str ("\n\n**Note:** This license may not be permissive. Please review before use.")
  str ("### ") ++ warningMark ++ dep ++ str ("\n\n") ++
  (if description.isEmpty then str ("No description available.") else description) ++
  str ("\n\n- **NPM:** [") ++ npmLink ++ str ("](") ++ npmLink ++
  str (")\n- **License:** [") ++ licenseLink ++ str ("](") ++ licenseLink ++
  str (")\n- *Cache:* ") ++ lastUpdated ++ warningNote ++ str ("\n\n---")

/-- `parseDate`: try the standard `new Date(string)` parse, then the
`"D. M. YYYY H"` regex (building the date with `new Date(y, m-1, d, h)`);
the loop over further format names retries `new Date(dateString)`, which
already failed, so it can never succeed; if everything fails the function
returns `new Date(0)`, the epoch. -/
def parseDate (env : Env) (dateString : Str) : Int :=
  match env.jsParse dateString with
  | some t => t
  | none =>
    match regexFindDMYH dateString with
    | some (day, month, year, hour) =>
      match env.mkDate (Int.ofNat year) (Int.ofNat month - 1) (Int.ofNat day) (Int.ofNat hour) with
      | some t => t
      | none => 0
    | none => 0

/-- `new Date(0).toISOString()`, the fallback written when an entry has no
cache line. -/
def epochISOString : Str := str ("1970-01-01T00:00:00.000Z")

/-- Parse one `"### "`-delimited entry of a previous report by line
position.  `none` models any thrown `TypeError` (too few non-blank lines, or
a link line without `(`), which aborts the whole read. -/
def parseCachedEntry (dep : Str) : Option CachedDependencyInfo :=
  let lines := (jsSplit dep (str ("\n"))).filter (fun l => !(jsTrim l).isEmpty)
  do
    let l0 ← lines[0]?
    let l1 ← lines[1]?
    let l2 ← lines[2]?
    let l3 ← lines[3]?
    let npmRaw ← (jsSplit l2 (str ("(")))[1]?
    let licenseRaw ← (jsSplit l3 (str ("(")))[1]?
    let lastUpdated :=
      match lines.find? (fun l => (str ("- *Cache:*")).isPrefixOf l) with
      | some lu => jsStripStars (jsTrim (((jsSplit lu (str (":")))[1]?).getD []))
      | none => epochISOString
    pure {
      name := jsReplaceFirst (str ("⚠️ ")) [] (jsTrim l0)
      npmLink := npmRaw.dropLast
      licenseLink := licenseRaw.dropLast
      description := jsTrim l1
      isPermissive := !jsIncludes l0 (str ("⚠️"))
      lastUpdated := lastUpdated }

/-- Parse every entry of the `for` loop in `readCachedDependencies`; a
single failure (a thrown `TypeError`) aborts the whole loop. -/
def parseAllEntries : List Str → Option (List CachedDependencyInfo)
  | [] => some []
  | e :: es => do
    let c ← parseCachedEntry e
    let cs ← parseAllEntries es
    pure (c :: cs)

/-- `readCachedDependencies`: split the previous report on `"### "`, drop
the header piece and parse each entry.  An unreadable file or any entry that
throws makes the surrounding `catch` return the empty mapping. -/
def readCachedDependencies (content : Option Str) : List CachedDependencyInfo :=
  match content with
  | none => []
  | some c =>
    match parseAllEntries ((jsSplit c (str ("### "))).drop 1) with
    | some l => l
    | none => []

/-- Lookup in the record built by `readCachedDependencies`; a later entry
with the same name overwrites an earlier one, as JavaScript object
assignment does. -/
def cacheLookup (cache : List CachedDependencyInfo) (dep : Str) : Option CachedDependencyInfo :=
  cache.reverse.find? (fun c => c.name == dep)

/-- Outcome of one dependency's unit of work inside the queue. -/
structure ProcResult where
  name : Str
  usedNetwork : Bool
  isPermissive : Bool
  block : Str
deriving Repr, DecidableEq

/-- The fresh-fetch branch of the per-dependency task. -/
def processFresh (env : Env) (dep : Str) : ProcResult :=
  let packageInfo := fetchPackageInfo env dep
  let license := packageInfo.license.getD []
  let npmLink := str ("https://www.npmjs.com/package/") ++ encodeURIComponent dep
  let licenseLink :=
    if license.isEmpty then str ("No license information available")
    else str ("https://opensource.org/licenses/") ++ encodeURIComponent license
  let isPerm := isPermissiveLicense license
  { name := dep, usedNetwork := true, isPermissive := isPerm,
    block := formatDependencyInfo dep npmLink licenseLink
      (packageInfo.description.getD []) isPerm env.nowLocaleString }

/-- One dependency's task: reuse a valid (strictly newer than `oneWeekAgo`)
cached record verbatim with no network call, otherwise fetch fresh. -/
def processDependency (env : Env) (cache : List CachedDependencyInfo) (dep : Str) : ProcResult :=
  match cacheLookup cache dep with
  | some cachedInfo =>
    if parseDate env cachedInfo.lastUpdated > env.oneWeekAgo then
      { name := dep, usedNetwork := false, isPermissive := cachedInfo.isPermissive,
        block := formatDependencyInfo dep cachedInfo.npmLink cachedInfo.licenseLink
          cachedInfo.description cachedInfo.isPermissive cachedInfo.lastUpdated }
    else processFresh env dep
  | none => processFresh env dep

/-- Keys of the spread-merged `{...dependencies, ...devDependencies}`
object.  Spread merging yields the union of the key sets (a later duplicate
key overwrites the value but the script only uses the keys); the key list is
sorted immediately afterwards, so only the set matters. -/
def allDependencyNames (p : PackageJson) : List Str :=
  (p.dependencies ++ p.devDependencies).dedup

/-- `Object.keys(allDependencies).sort()`. -/
def sortedDependencyNames (p : PackageJson) : List Str :=
  List.insertionSort jsStrLeRel (allDependencyNames p)

/-- All per-dependency results, in the order `Promise.all` returns them:
the sorted key order, independent of completion timing. -/
def pipelineResults (env : Env) (p : PackageJson) : List ProcResult :=
  (sortedDependencyNames p).map
    (processDependency env (readCachedDependencies env.prevReport))

/-- Decimal rendering of a counter. -/
def natToStr (n : Nat) : Str := Nat.toDigits 10 n

/-- The report header, with the generation timestamp and the two summary
counts interpolated. -/
def reportHeader (genTimestamp : Str) (total nonPermissive : Nat) : Str :=
  str ("# Project Dependencies List\n\n> Generated on: ") ++ genTimestamp ++
  str ("\n\n## Summary\n- **Total Dependencies:** ") ++ natToStr total ++
  str ("\n- **Non-Permissive Licenses:** ") ++ natToStr nonPermissive ++
  str ("\n\n## Description\nThis document contains a comprehensive list of all dependencies used in this codebase. For each dependency, you'll find:\n- Its intended use\n- Source link\n- License information\n- A link to the license definition\n\n## Note\n⚠️ **Warning:** Dependencies marked with ⚠️ have potentially non-permissive licenses. Please review these carefully before use.\n\n---\n")

/-- The fixed report footer. -/
def reportFooter : Str := str ("\n\n---\n\nEnd of Dependencies List")

/-- The number of non-permissive records, as accumulated by the
`nonPermissiveCount` counter: each task increments it exactly once when its
record is not permissive, and `Promise.all` completes before the header is
built, so the counter equals this count. -/
def countNonPermissive (rs : List ProcResult) : Nat :=
  rs.countP (fun r => !r.isPermissive)

/-- JavaScript `Array.prototype.join`. -/
def joinSep (sep : Str) : List Str → Str
  | [] => []
  | [x] => x
  | x :: xs => x ++ sep ++ joinSep sep xs

/-- The full document `header + dependenciesList + footer`. -/
def reportContent (env : Env) (p : PackageJson) : Str :=
  reportHeader env.genLocaleString (allDependencyNames p).length
      (countNonPermissive (pipelineResults env p)) ++
    joinSep (str ("\n\n")) ((pipelineResults env p).map (fun r => r.block)) ++
    reportFooter

/-- The only error that escapes the per-dependency and cache-read handlers:
a manifest that cannot be read or parsed, thrown before any processing. -/
inductive RunError where
  | manifestUnreadableOrMalformed
deriving Repr, DecidableEq

/-- The body of the `try` block of `generateDependenciesList`: it either
produces the report text to be written, or throws on the manifest. -/
def runGenerateBody (env : Env) : Except RunError Str :=
  match env.manifest with
  | none => Except.error RunError.manifestUnreadableOrMalformed
  | some p => Except.ok (reportContent env p)

/-- Observable outcome of one whole run. `written c` = the report `c` was
written and the process exits normally; `failedLogged` = the top-level
`catch` logged the error and returned, so nothing was written and the
process still exits normally (exit code 0). -/
inductive RunOutcome where
  | written (content : Str)
  | failedLogged
deriving Repr, DecidableEq

/-- `generateDependenciesList`: the whole run with its top-level
`try`/`catch`.  No exception escapes: a thrown manifest error is caught,
logged and swallowed. -/
def generateDependenciesList (env : Env) : RunOutcome :=
  match runGenerateBody env with
  | Except.ok c => RunOutcome.written c
  | Except.error _ => RunOutcome.failedLogged

/-- Render one `CachedDependencyInfo` through the Report Formatter. -/
def formatRecord (r : CachedDependencyInfo) : Str :=
  formatDependencyInfo r.name r.npmLink r.licenseLink r.description
    r.isPermissive r.lastUpdated

/-- Render a whole report from a list of records, exactly as
`generateDependenciesList` assembles it. -/
def renderReport (genTimestamp : Str) (records : List CachedDependencyInfo) : Str :=
  reportHeader genTimestamp records.length
      (records.countP (fun r => !r.isPermissive)) ++
    joinSep (str ("\n\n")) (records.map formatRecord) ++
    reportFooter

/-- Hinnant's civil-from-days algorithm: days between 1970-01-01 and the
proleptic Gregorian date `y-m-d` (month 1-12), used to give the witnesses a
concrete, faithful UTC instance of the environment's `mkDate`. -/
def daysFromCivil (y m d : Int) : Int :=
  let yAdj := if m ≤ 2 then y - 1 else y
  let era := yAdj.fdiv 400
  let yoe := yAdj - era * 400
  let mp := (m + 9).emod 12
  let doy := (153 * mp + 2).fdiv 5 + d - 1
  let doe := yoe * 365 + yoe.fdiv 4 - yoe.fdiv 100 + doy
  era * 146097 + doe - 719468

/-- A concrete UTC instance of `new Date(year, monthIndex, day, hour)`:
two-digit years map to 1900+y, out-of-range months roll over, and results
beyond the ECMAScript time range are NaN (`none`). -/
def jsMakeDateUTC (year monthIndex day hour : Int) : Option Int :=
  let y := if 0 ≤ year ∧ year ≤ 99 then year + 1900 else year
  let yNorm := y + monthIndex.fdiv 12
  let mNorm := monthIndex.emod 12
  let ms := daysFromCivil yNorm (mNorm + 1) day * 86400000 + hour * 3600000
  if ms.natAbs ≤ 8640000000000000 then some ms else none

/-- A concrete baseline environment for witnesses: the standard date parser
rejects everything (so only the regex fallback can parse), dates are built
in UTC, `oneWeekAgo` is a realistic 2025 timestamp, the registry is down,
and both input files are unreadable. -/
def baseEnv : Env where
  jsParse := fun _ => none
  mkDate := jsMakeDateUTC
  oneWeekAgo := 1759536000000
  nowLocaleString := str ("11. 10. 2025 12")
  genLocaleString := str ("11. 10. 2025 12")
  registry := fun _ => none
  manifest := none
  prevReport := none

example : daysFromCivil 1970 1 1 = 0 := by decide
example : daysFromCivil 2030 1 1 = 21915 := by decide

/-! ### Basic lemmas about the string primitives -/

/-- `jsIncludes` agrees with contiguous-substring occurrence. -/
theorem jsIncludes_iff {s sub : Str} :
    jsIncludes s sub = true ↔ ∃ a b, s = a ++ sub ++ b := by
  induction s with
  | nil =>
    constructor
    · intro h
      simp only [jsIncludes, List.isEmpty_iff] at h
      exact ⟨[], [], by simp [h]⟩
    · rintro ⟨a, b, h⟩
      have h' : a ++ sub ++ b = [] := h.symm
      simp only [List.append_eq_nil] at h'
      obtain ⟨⟨-, h2⟩, -⟩ := h'
      simp [jsIncludes, h2]
  | cons c cs ih =>
    simp only [jsIncludes, Bool.or_eq_true, List.isPrefixOf_iff_prefix, ih]
    constructor
    · rintro (⟨t, ht⟩ | ⟨a, b, rfl⟩)
      · exact ⟨[], t, by simp [← ht]⟩
      · exact ⟨c :: a, b, by simp⟩
    · rintro ⟨a, b, h⟩
      cases a with
      | nil =>
        left
        exact ⟨b, by simpa using h.symm⟩
      | cons x a' =>
        right
        injection h with h1 h2
        exact ⟨a', b, h2⟩

/-- Failure of one entry makes the whole entry loop fail. -/
theorem parseAllEntries_eq_none_of_mem {l : List Str} {e : Str}
    (he : e ∈ l) (hf : parseCachedEntry e = none) : parseAllEntries l = none := by
  induction l with
  | nil => cases he
  | cons x xs ih =>
    rcases List.mem_cons.mp he with rfl | hmem
    · simp [parseAllEntries, hf]
    · cases hx : parseCachedEntry x <;> simp [parseAllEntries, hx, ih hmem]

/-! ### C5: the license classifier -/

/-- C5: for every license string, the License Classifier returns `true`
exactly when the string case-insensitively contains one of the substrings
MIT, BSD, Apache, ISC, Unlicense, CC0, WTFPL, Zlib; in particular the empty
string (and any string containing none of the substrings, by the
left-to-right reading of the equivalence) classifies as non-permissive. -/
theorem C5_license_classifier :
    (∀ license : Str,
      isPermissiveLicense license = true ↔
        ∃ pl ∈ permissiveLicenses, ∃ a w b,
          license = a ++ w ++ b ∧ jsToUpper w = jsToUpper pl)
    ∧ isPermissiveLicense [] = false := by
  constructor
  · intro license
    unfold isPermissiveLicense
    rw [List.any_eq_true]
    constructor
    · rintro ⟨pl, hpl, hinc⟩
      obtain ⟨a, b, hab⟩ := jsIncludes_iff.mp hinc
      rw [List.append_assoc] at hab
      obtain ⟨l₁, l₂, rfl, hl₁, hl₂⟩ := List.map_eq_append_iff.mp hab
      obtain ⟨w, b', hwb, hw, hb'⟩ := List.map_eq_append_iff.mp hl₂
      exact ⟨pl, hpl, l₁, w, b', by rw [hwb, List.append_assoc], hw⟩
    · rintro ⟨pl, hpl, a, w, b, rfl, hw⟩
      refine ⟨pl, hpl, jsIncludes_iff.mpr ⟨jsToUpper a, jsToUpper b, ?_⟩⟩
      simp [jsToUpper, List.map_append] at hw ⊢
      rw [hw]
  · decide

/-! ### C9: one malformed entry discards the whole cache -/

/-- C9: if positional extraction fails on any single entry of the previous
report, `readCachedDependencies` returns the empty mapping, discarding every
entry including well-formed ones. -/
theorem C9_malformed_entry_discards_all :
    ∀ content : Str,
      (∃ e ∈ (jsSplit content (str ("### "))).drop 1, parseCachedEntry e = none) →
      readCachedDependencies (some content) = [] := by
  rintro content ⟨e, he, hp⟩
  simp only [readCachedDependencies]
  rw [parseAllEntries_eq_none_of_mem he hp]

/-- A previous report whose first entry is well-formed and whose second
entry lacks the link lines: the reader discards both. -/
def mixedCacheDoc : Str :=
  str ("### a\n\nd\n\n- **NPM:** [L](L)\n- **License:** [M](M)\n- *Cache:* x\n\n---\n\n### bad\n\nonly-desc")

theorem C9_malformed_entry_discards_all_witness :
    (parseCachedEntry
        (str ("a\n\nd\n\n- **NPM:** [L](L)\n- **License:** [M](M)\n- *Cache:* x\n\n---\n\n"))).isSome
        = true ∧
    readCachedDependencies (some mixedCacheDoc) = [] :=
  ⟨by decide,
   C9_malformed_entry_discards_all mixedCacheDoc
     ⟨str ("bad\n\nonly-desc"), by decide, by decide⟩⟩

/-! ### C2: manifest failure is caught, logged, and the run returns -/

/-- C2 (amended): when the manifest is unreadable or malformed the body of
the run throws before anything is generated, so no report is produced and
the failure is logged — but the top-level catch swallows the error and the
process completes normally (exit code 0) instead of ending abnormally. -/
theorem C2_manifest_failure_caught :
    ∀ env : Env, env.manifest = none →
      runGenerateBody env = Except.error RunError.manifestUnreadableOrMalformed ∧
      generateDependenciesList env = RunOutcome.failedLogged := by
  intro env h
  constructor
  · simp [runGenerateBody, h]
  · simp [generateDependenciesList, runGenerateBody, h]

theorem C2_manifest_failure_caught_witness :
    baseEnv.manifest = none ∧
    runGenerateBody baseEnv = Except.error RunError.manifestUnreadableOrMalformed ∧
    generateDependenciesList baseEnv = RunOutcome.failedLogged :=
  ⟨rfl, C2_manifest_failure_caught baseEnv rfl⟩

/-- C2, counterexample to the claim as stated: on a run whose manifest is
unreadable the thrown error is caught by the top-level handler and the run
returns the ordinary `failedLogged` outcome — a normal process exit, not an
abnormal end (the report is still not produced and the failure is logged,
which are the parts of the claim that do hold). -/
theorem C2_counterexample_normal_exit :
    runGenerateBody baseEnv = Except.error RunError.manifestUnreadableOrMalformed ∧
    generateDependenciesList baseEnv = RunOutcome.failedLogged ∧
    ∀ c : Str, generateDependenciesList baseEnv ≠ RunOutcome.written c := by
  refine ⟨rfl, rfl, ?_⟩
  intro c h
  exact nomatch h

/-! ### C4: the staleness decision -/

/-- C4: a cached record is reused (no network) exactly when its parsed
`lastUpdated` is strictly newer than `oneWeekAgo`; when both the standard
parse and the `"D. M. YYYY H"` regex fail, `parseDate` yields the epoch
(`new Date(0)`), so the record counts as stale and the dependency is
re-fetched whenever the run happens after 1970-01-08. -/
theorem C4_staleness_decision :
    (∀ (env : Env) (cache : List CachedDependencyInfo) (dep : Str),
      (processDependency env cache dep).usedNetwork = false ↔
        ∃ c, cacheLookup cache dep = some c ∧
          parseDate env c.lastUpdated > env.oneWeekAgo)
    ∧ (∀ (env : Env) (s : Str),
        env.jsParse s = none → regexFindDMYH s = none → parseDate env s = 0)
    ∧ (∀ (env : Env) (cache : List CachedDependencyInfo) (dep : Str)
        (c : CachedDependencyInfo),
        cacheLookup cache dep = some c → env.jsParse c.lastUpdated = none →
        regexFindDMYH c.lastUpdated = none → 0 < env.oneWeekAgo →
        (processDependency env cache dep).usedNetwork = true) := by
  refine ⟨?_, ?_, ?_⟩
  · intro env cache dep
    cases h : cacheLookup cache dep with
    | none => simp [processDependency, processFresh, h]
    | some c =>
      by_cases hv : parseDate env c.lastUpdated > env.oneWeekAgo
      · simp [processDependency, h, hv]
      · simp [processDependency, processFresh, h, hv]
  · intro env s h1 h2
    simp [parseDate, h1, h2]
  · intro env cache dep c hc h1 h2 hpos
    cases hu : (processDependency env cache dep).usedNetwork with
    | true => rfl
    | false =>
      exfalso
      have h0 : parseDate env c.lastUpdated = 0 := by simp [parseDate, h1, h2]
      cases h' : cacheLookup cache dep with
      | none => simp [processDependency, processFresh, h'] at hu
      | some c' =>
        rw [hc] at h'
        injection h' with h''
        subst h''
        by_cases hv : parseDate env c.lastUpdated > env.oneWeekAgo
        · rw [h0] at hv
          omega
        · simp [processDependency, processFresh, hc, hv] at hu

/-! ### Ordering of the dependency names -/

/-- Head characterization of the string comparator. -/
theorem jsStrLe_cons_iff {a b : Char} {as bs : Str} :
    jsStrLe (a :: as) (b :: bs) = true ↔
      a.toNat < b.toNat ∨ (a.toNat = b.toNat ∧ jsStrLe as bs = true) := by
  simp only [jsStrLe]
  by_cases h1 : a.toNat < b.toNat
  · simp [h1]
  · simp only [if_neg h1]
    by_cases h2 : b.toNat < a.toNat
    · simp only [if_pos h2]
      constructor
      · intro h
        simp at h
      · rintro (h | ⟨h, -⟩) <;> omega
    · simp only [if_neg h2]
      have he : a.toNat = b.toNat := by omega
      simp [he, h1]

theorem jsStrLe_total : ∀ a b : Str, jsStrLe a b = true ∨ jsStrLe b a = true := by
  intro a
  induction a with
  | nil => intro b; left; rfl
  | cons x xs ih =>
    intro b
    cases b with
    | nil => right; rfl
    | cons y ys =>
      rcases Nat.lt_trichotomy x.toNat y.toNat with h | h | h
      · exact Or.inl (jsStrLe_cons_iff.mpr (Or.inl h))
      · rcases ih ys with h' | h'
        · exact Or.inl (jsStrLe_cons_iff.mpr (Or.inr ⟨h, h'⟩))
        · exact Or.inr (jsStrLe_cons_iff.mpr (Or.inr ⟨h.symm, h'⟩))
      · exact Or.inr (jsStrLe_cons_iff.mpr (Or.inl h))

theorem jsStrLe_trans :
    ∀ a b c : Str, jsStrLe a b = true → jsStrLe b c = true → jsStrLe a c = true := by
  intro a
  induction a with
  | nil => intros; rfl
  | cons x xs ih =>
    intro b c hab hbc
    cases b with
    | nil => simp [jsStrLe] at hab
    | cons y ys =>
      cases c with
      | nil => simp [jsStrLe] at hbc
      | cons z zs =>
        rcases jsStrLe_cons_iff.mp hab with h1 | ⟨h1, h1'⟩ <;>
          rcases jsStrLe_cons_iff.mp hbc with h2 | ⟨h2, h2'⟩
        · exact jsStrLe_cons_iff.mpr (Or.inl (by omega))
        · exact jsStrLe_cons_iff.mpr (Or.inl (by omega))
        · exact jsStrLe_cons_iff.mpr (Or.inl (by omega))
        · exact jsStrLe_cons_iff.mpr (Or.inr ⟨by omega, ih ys zs h1' h2'⟩)

instance : IsTotal Str jsStrLeRel := ⟨jsStrLe_total⟩

instance : IsTrans Str jsStrLeRel := ⟨jsStrLe_trans⟩

/-- Every branch of the per-dependency task stamps the dependency's own
name on its result. -/
theorem processDependency_name (env : Env) (cache : List CachedDependencyInfo) (dep : Str) :
    (processDependency env cache dep).name = dep := by
  cases h : cacheLookup cache dep with
  | none => simp [processDependency, processFresh, h]
  | some c =>
    by_cases hv : parseDate env c.lastUpdated > env.oneWeekAgo <;>
      simp [processDependency, processFresh, h, hv]

/-! ### C6: one record per dependency, in ascending name order -/

/-- C6: for every environment and manifest, the per-dependency results are
exactly the sorted merged key list: their names are sorted ascending, they
are a duplicate-free permutation of the merged runtime+development names —
so each merged name produces exactly one record and no record exists for a
name outside the mapping.  Completion order of individual fetches does not
appear in the denotation: `Promise.all` keeps the sorted input order. -/
theorem C6_one_sorted_record_per_dependency :
    ∀ (env : Env) (p : PackageJson),
      ((pipelineResults env p).map (fun r => r.name) = sortedDependencyNames p) ∧
      List.Sorted jsStrLeRel ((pipelineResults env p).map (fun r => r.name)) ∧
      ((pipelineResults env p).map (fun r => r.name)).Perm (allDependencyNames p) ∧
      ((pipelineResults env p).map (fun r => r.name)).Nodup ∧
      ∀ d : Str, (d ∈ (pipelineResults env p).map (fun r => r.name) ↔
        d ∈ allDependencyNames p) := by
  intro env p
  have hmap : (pipelineResults env p).map (fun r => r.name) = sortedDependencyNames p := by
    unfold pipelineResults
    rw [List.map_map]
    have hcomp :
        ((fun r => r.name) ∘ processDependency env (readCachedDependencies env.prevReport))
          = id := by
      funext d
      exact processDependency_name env _ d
    rw [hcomp, List.map_id]
  have hperm := List.perm_insertionSort jsStrLeRel (allDependencyNames p)
  refine ⟨hmap, ?_, ?_, ?_, ?_⟩
  · rw [hmap]
    exact List.sorted_insertionSort jsStrLeRel _
  · rw [hmap]
    exact hperm
  · rw [hmap]
    exact hperm.nodup_iff.mpr (List.nodup_dedup _)
  · intro d
    rw [hmap]
    exact hperm.mem_iff

/-! ### The cache-validity test and the two task branches -/

/-- The `isCacheValid` test of the per-dependency task. -/
def cacheValid (env : Env) (cache : List CachedDependencyInfo) (dep : Str) : Bool :=
  match cacheLookup cache dep with
  | some c => decide (parseDate env c.lastUpdated > env.oneWeekAgo)
  | none => false

theorem processDependency_eq_fresh {env : Env} {cache : List CachedDependencyInfo}
    {dep : Str} (h : cacheValid env cache dep = false) :
    processDependency env cache dep = processFresh env dep := by
  unfold cacheValid at h
  cases h' : cacheLookup cache dep with
  | none => simp [processDependency, h']
  | some c =>
    rw [h'] at h
    simp only [decide_eq_false_iff_not] at h
    simp [processDependency, h', h]

/-- A dependency of the manifest contributes its task result to the
pipeline output. -/
theorem processDependency_mem_pipeline (env : Env) (p : PackageJson) (dep : Str)
    (hd : dep ∈ allDependencyNames p) :
    processDependency env (readCachedDependencies env.prevReport) dep ∈
      pipelineResults env p := by
  unfold pipelineResults sortedDependencyNames
  exact List.mem_map_of_mem _ ((List.mem_insertionSort jsStrLeRel).mpr hd)

/-! ### C7: registry failure degrades to an empty record, never aborts -/

/-- C7: when the registry call for a dependency fails (network error,
non-2xx, malformed body), the Registry Client returns empty metadata
without raising; the dependency is still processed: its block carries the
placeholder description and the text `No license information available` in
place of a license link, it is classified non-permissive, and it still
appears among the pipeline's results. -/
theorem C7_registry_failure_degrades :
    ∀ (env : Env) (p : PackageJson) (dep : Str),
      env.registry dep = none →
      cacheValid env (readCachedDependencies env.prevReport) dep = false →
      fetchPackageInfo env dep = { license := none, description := none } ∧
      (processDependency env (readCachedDependencies env.prevReport) dep).usedNetwork = true ∧
      (processDependency env (readCachedDependencies env.prevReport) dep).isPermissive = false ∧
      (processDependency env (readCachedDependencies env.prevReport) dep).block =
        formatDependencyInfo dep
          (str ("https://www.npmjs.com/package/") ++ encodeURIComponent dep)
          (str ("No license information available")) [] false env.nowLocaleString ∧
      jsIncludes (processDependency env (readCachedDependencies env.prevReport) dep).block
        (str ("No description available.")) = true ∧
      jsIncludes (processDependency env (readCachedDependencies env.prevReport) dep).block
        (str ("No license information available")) = true ∧
      (dep ∈ allDependencyNames p →
        processDependency env (readCachedDependencies env.prevReport) dep ∈
          pipelineResults env p) := by
  intro env p dep hreg hcv
  have hfetch : fetchPackageInfo env dep = { license := none, description := none } := by
    simp [fetchPackageInfo, hreg]
  have hfresh := processDependency_eq_fresh hcv
  have hperm0 : isPermissiveLicense [] = false := by decide
  have hblock : (processFresh env dep).block =
      formatDependencyInfo dep
        (str ("https://www.npmjs.com/package/") ++ encodeURIComponent dep)
        (str ("No license information available")) [] false env.nowLocaleString := by
    simp [processFresh, hfetch, hperm0]
  refine ⟨hfetch, ?_, ?_, ?_, ?_, ?_, fun hd => processDependency_mem_pipeline env p dep hd⟩
  · rw [hfresh]
    rfl
  · rw [hfresh]
    simp [processFresh, hfetch, hperm0]
  · rw [hfresh, hblock]
  · rw [hfresh, hblock]
    apply jsIncludes_iff.mpr
    refine ⟨str ("### ") ++ str ("⚠️ ") ++ dep ++ str ("\n\n"),
      str ("\n\n- **NPM:** [") ++
        (str ("https://www.npmjs.com/package/") ++ encodeURIComponent dep) ++ str ("](") ++
        (str ("https://www.npmjs.com/package/") ++ encodeURIComponent dep) ++
        str (")\n- **License:** [") ++ str ("No license information available") ++
        str ("](") ++ str ("No license information available") ++
        str (")\n- *Cache:* ") ++ env.nowLocaleString ++
        str ("\n\n**Note:** This license may not be permissive. Please review before use.") ++
        str ("\n\n---"), ?_⟩
    simp [formatDependencyInfo, List.append_assoc]
  · rw [hfresh, hblock]
    apply jsIncludes_iff.mpr
    refine ⟨str ("### ") ++ str ("⚠️ ") ++ dep ++ str ("\n\n") ++
      str ("No description available.") ++ str ("\n\n- **NPM:** [") ++
      (str ("https://www.npmjs.com/package/") ++ encodeURIComponent dep) ++ str ("](") ++
      (str ("https://www.npmjs.com/package/") ++ encodeURIComponent dep) ++
      str (")\n- **License:** ["),
      str ("](") ++ str ("No license information available") ++
        str (")\n- *Cache:* ") ++ env.nowLocaleString ++
        str ("\n\n**Note:** This license may not be permissive. Please review before use.") ++
        str ("\n\n---"), ?_⟩
    simp [formatDependencyInfo, List.append_assoc]

/-- Environment of the end-to-end failure example: one dependency
`broken-pkg` whose registry call fails. -/
def brokenEnv : Env :=
  { baseEnv with manifest := some { dependencies := [str ("broken-pkg")], devDependencies := [] } }

theorem C7_registry_failure_degrades_witness :
    brokenEnv.registry (str ("broken-pkg")) = none ∧
    cacheValid brokenEnv (readCachedDependencies brokenEnv.prevReport) (str ("broken-pkg")) = false ∧
    (processDependency brokenEnv (readCachedDependencies brokenEnv.prevReport)
        (str ("broken-pkg"))).usedNetwork = true ∧
    (processDependency brokenEnv (readCachedDependencies brokenEnv.prevReport)
        (str ("broken-pkg"))).isPermissive = false ∧
    jsIncludes (processDependency brokenEnv (readCachedDependencies brokenEnv.prevReport)
        (str ("broken-pkg"))).block (str ("No license information available")) = true :=
  ⟨rfl, by decide,
   (C7_registry_failure_degrades brokenEnv
      { dependencies := [str ("broken-pkg")], devDependencies := [] }
      (str ("broken-pkg")) rfl (by decide)).2.1,
   (C7_registry_failure_degrades brokenEnv
      { dependencies := [str ("broken-pkg")], devDependencies := [] }
      (str ("broken-pkg")) rfl (by decide)).2.2.1,
   (C7_registry_failure_degrades brokenEnv
      { dependencies := [str ("broken-pkg")], devDependencies := [] }
      (str ("broken-pkg")) rfl (by decide)).2.2.2.2.2.1⟩

/-! ### C3: a valid cache hit makes no network call -/

/-- C3 (amended): for a dependency with a valid (strictly newer than
`oneWeekAgo`) cached record, no network call is made and the parsed cached
link, description, permissiveness flag and timestamp are reused verbatim:
the output block is the formatter applied to those parsed fields.  It is
not byte-identical to the block stored in the previous report in general,
because re-parsing truncates the stored timestamp at its first colon and
keeps the template's leading space (see the counterexample); the glyph and
description positions are preserved. -/
theorem C3_cache_hit_reuses_parsed_fields :
    ∀ (env : Env) (p : PackageJson) (dep : Str) (c : CachedDependencyInfo),
      cacheLookup (readCachedDependencies env.prevReport) dep = some c →
      parseDate env c.lastUpdated > env.oneWeekAgo →
      (processDependency env (readCachedDependencies env.prevReport) dep).usedNetwork = false ∧
      (processDependency env (readCachedDependencies env.prevReport) dep).isPermissive
        = c.isPermissive ∧
      (processDependency env (readCachedDependencies env.prevReport) dep).block =
        formatDependencyInfo dep c.npmLink c.licenseLink c.description
          c.isPermissive c.lastUpdated ∧
      (dep ∈ allDependencyNames p →
        processDependency env (readCachedDependencies env.prevReport) dep ∈
          pipelineResults env p) := by
  intro env p dep c hc hv
  refine ⟨?_, ?_, ?_, fun hd => processDependency_mem_pipeline env p dep hd⟩ <;>
    simp [processDependency, hc, hv]

/-- The record the Cache Reader reconstructs from `cachedBlockC3` below:
note the leading space the reader leaves on the timestamp. -/
def cachedRecC3 : CachedDependencyInfo :=
  { name := str ("a"), npmLink := str ("L"), licenseLink := str ("M"),
    description := str ("d"), isPermissive := true, lastUpdated := str (" 1. 1. 2030 0") }

/-- A previous report whose single block has a fresh (year 2030) timestamp
containing no colon. -/
def cachedBlockC3 : Str :=
  str ("### a\n\nd\n\n- **NPM:** [L](L)\n- **License:** [M](M)\n- *Cache:* 1. 1. 2030 0\n\n---")

/-- The run that reads `cachedBlockC3` as its previous report. -/
def envC3 : Env :=
  { baseEnv with
    manifest := some { dependencies := [str ("a")], devDependencies := [] },
    prevReport := some cachedBlockC3 }

theorem C3_cache_hit_reuses_parsed_fields_witness :
    cacheLookup (readCachedDependencies envC3.prevReport) (str ("a")) = some cachedRecC3 ∧
    parseDate envC3 cachedRecC3.lastUpdated > envC3.oneWeekAgo ∧
    (processDependency envC3 (readCachedDependencies envC3.prevReport)
        (str ("a"))).usedNetwork = false ∧
    (processDependency envC3 (readCachedDependencies envC3.prevReport)
        (str ("a"))).block =
      formatDependencyInfo (str ("a")) cachedRecC3.npmLink cachedRecC3.licenseLink
        cachedRecC3.description cachedRecC3.isPermissive cachedRecC3.lastUpdated :=
  ⟨by decide, by decide,
   (C3_cache_hit_reuses_parsed_fields envC3
      { dependencies := [str ("a")], devDependencies := [] }
      (str ("a")) cachedRecC3 (by decide) (by decide)).1,
   (C3_cache_hit_reuses_parsed_fields envC3
      { dependencies := [str ("a")], devDependencies := [] }
      (str ("a")) cachedRecC3 (by decide) (by decide)).2.2.1⟩

/-- C3, counterexample to byte-identity: the cached record for `a` is valid
(2030 is newer than one week ago), no network call is made, yet the emitted
block is not byte-identical to the stored block: the reader returned the
timestamp with the template's leading space, so the new `Cache:` line
carries two spaces. -/
theorem C3_counterexample_block_differs :
    (processDependency envC3 (readCachedDependencies envC3.prevReport)
        (str ("a"))).usedNetwork = false ∧
    (processDependency envC3 (readCachedDependencies envC3.prevReport)
        (str ("a"))).block =
      str ("### a\n\nd\n\n- **NPM:** [L](L)\n- **License:** [M](M)\n- *Cache:*  1. 1. 2030 0\n\n---") ∧
    (processDependency envC3 (readCachedDependencies envC3.prevReport)
        (str ("a"))).block ≠ cachedBlockC3 := by
  refine ⟨by decide, by decide, by decide⟩

/-! ### C10: the summary counts -/

/-- A dependency block whose title carries the warning glyph. -/
def blockHasWarningTitle (b : Str) : Bool := (str ("### ⚠️ ")).isPrefixOf b

/-- Decompose a prefix of a concatenation. -/
theorem prefix_append_cases {p a b : Str} (h : p <+: a ++ b) :
    p <+: a ∨ ∃ q, p = a ++ q ∧ q <+: b := by
  induction a generalizing p with
  | nil =>
    right
    exact ⟨p, rfl, by simpa using h⟩
  | cons x a' ih =>
    cases p with
    | nil => exact Or.inl List.nil_prefix
    | cons y p' =>
      rw [List.cons_append, List.cons_prefix_cons] at h
      obtain ⟨rfl, h'⟩ := h
      rcases ih h' with hc | ⟨q, rfl, hq⟩
      · exact Or.inl (List.cons_prefix_cons.mpr ⟨rfl, hc⟩)
      · exact Or.inr ⟨q, by simp, hq⟩

/-- A pattern avoiding `c` cannot become a prefix across a `c` boundary. -/
theorem not_prefix_append_cons {p a : Str} {c : Char} (z : Str)
    (h1 : ¬ p <+: a) (h2 : c ∉ p) : ¬ p <+: a ++ c :: z := by
  intro h
  rcases prefix_append_cases h with hc | ⟨q, rfl, hq⟩
  · exact h1 hc
  · cases q with
    | nil => exact h1 (by simp)
    | cons y q' =>
      rw [List.cons_prefix_cons] at hq
      obtain ⟨rfl, -⟩ := hq
      exact h2 (by simp)

/-- The rendered block's title starts with the warning glyph exactly for
non-permissive records — provided the dependency's own name does not start
with the glyph. -/
theorem blockHasWarningTitle_format (dep npm lic desc : Str) (flag : Bool) (ts : Str)
    (hdep : ¬ (str ("⚠️ ")).isPrefixOf dep) :
    blockHasWarningTitle (formatDependencyInfo dep npm lic desc flag ts) = !flag := by
  have hdep' : ¬ (str ("⚠️ ")) <+: dep := by
    rw [← List.isPrefixOf_iff_prefix]
    simpa using hdep
  cases flag with
  | false =>
    unfold blockHasWarningTitle formatDependencyInfo
    rw [show str ("### ⚠️ ") = str ("### ") ++ str ("⚠️ ") from rfl]
    simp only [Bool.false_eq_true, if_false, Bool.not_false, List.append_assoc,
      List.isPrefixOf_iff_prefix]
    exact List.prefix_append _ _
  | true =>
    unfold blockHasWarningTitle formatDependencyInfo
    rw [show str ("### ⚠️ ") = str ("### ") ++ str ("⚠️ ") from rfl]
    simp only [Bool.not_true, Bool.eq_false_iff, ne_eq, List.isPrefixOf_iff_prefix,
      List.nil_append, List.append_assoc, List.prefix_append_right_inj, if_true]
    exact not_prefix_append_cons _ hdep' (by decide)

/-- Each task's block carries the glyph exactly when the task classified
the dependency non-permissive (names not starting with the glyph). -/
theorem processDependency_block_flag (env : Env) (cache : List CachedDependencyInfo)
    (dep : Str) (hdep : ¬ (str ("⚠️ ")).isPrefixOf dep) :
    blockHasWarningTitle (processDependency env cache dep).block
      = !(processDependency env cache dep).isPermissive := by
  cases h : cacheLookup cache dep with
  | none => simp [processDependency, processFresh, h, blockHasWarningTitle_format _ _ _ _ _ _ hdep]
  | some c =>
    by_cases hv : parseDate env c.lastUpdated > env.oneWeekAgo <;>
      simp [processDependency, processFresh, h, hv,
        blockHasWarningTitle_format _ _ _ _ _ _ hdep]

/-- C10 (amended): the document is the header whose `Non-Permissive
Licenses` count equals the number of blocks whose title is prefixed with
the warning glyph (the counter is incremented exactly once per
non-permissive record) and whose `Total Dependencies` count equals the
number of dependency blocks — provided no dependency name itself begins
with the warning glyph (see the counterexample for such a name). -/
theorem C10_header_counts_match_blocks :
    ∀ (env : Env) (p : PackageJson),
      (∀ d ∈ allDependencyNames p, ¬ (str ("⚠️ ")).isPrefixOf d) →
      reportContent env p =
        reportHeader env.genLocaleString
          ((pipelineResults env p).map (fun r => r.block)).length
          (((pipelineResults env p).map (fun r => r.block)).countP blockHasWarningTitle) ++
        joinSep (str ("\n\n")) ((pipelineResults env p).map (fun r => r.block)) ++
        reportFooter := by
  intro env p hglyph
  have hlen : (allDependencyNames p).length =
      ((pipelineResults env p).map (fun r => r.block)).length := by
    rw [List.length_map]
    unfold pipelineResults sortedDependencyNames
    rw [List.length_map, List.length_insertionSort]
  have hcount : countNonPermissive (pipelineResults env p) =
      ((pipelineResults env p).map (fun r => r.block)).countP blockHasWarningTitle := by
    rw [List.countP_map]
    unfold countNonPermissive
    apply List.countP_congr
    intro r hr
    obtain ⟨dep, hdep, rfl⟩ := List.mem_map.mp hr
    have hmem : dep ∈ allDependencyNames p := by
      unfold sortedDependencyNames at hdep
      exact (List.mem_insertionSort jsStrLeRel).mp hdep
    have := processDependency_block_flag env (readCachedDependencies env.prevReport) dep
      (hglyph dep hmem)
    simp [Function.comp, this]
  unfold reportContent
  rw [hlen, hcount]

theorem C10_header_counts_match_blocks_witness :
    (∀ d ∈ allDependencyNames { dependencies := [str ("broken-pkg")], devDependencies := [] },
      ¬ (str ("⚠️ ")).isPrefixOf d) ∧
    reportContent brokenEnv { dependencies := [str ("broken-pkg")], devDependencies := [] } =
      reportHeader brokenEnv.genLocaleString
        ((pipelineResults brokenEnv
          { dependencies := [str ("broken-pkg")], devDependencies := [] }).map
            (fun r => r.block)).length
        (((pipelineResults brokenEnv
          { dependencies := [str ("broken-pkg")], devDependencies := [] }).map
            (fun r => r.block)).countP blockHasWarningTitle) ++
      joinSep (str ("\n\n")) ((pipelineResults brokenEnv
        { dependencies := [str ("broken-pkg")], devDependencies := [] }).map
          (fun r => r.block)) ++
      reportFooter :=
  ⟨by decide,
   C10_header_counts_match_blocks brokenEnv
     { dependencies := [str ("broken-pkg")], devDependencies := [] } (by decide)⟩

/-- A manifest whose only dependency name itself begins with the warning
glyph, and a registry that reports it MIT-licensed. -/
def envC10 : Env :=
  { baseEnv with
    manifest := some { dependencies := [str ("⚠️ x")], devDependencies := [] },
    registry := fun _ => some { license := some (str ("MIT")), description := some (str ("d")) } }

/-- C10, counterexample to the claim as stated: the permissive dependency
named `⚠️ x` produces a block whose title is prefixed with the warning
glyph, so the glyph-titled block count (1) differs from the header's
non-permissive count (0). -/
theorem C10_counterexample_glyph_named_dependency :
    countNonPermissive (pipelineResults envC10
      { dependencies := [str ("⚠️ x")], devDependencies := [] }) = 0 ∧
    ((pipelineResults envC10
      { dependencies := [str ("⚠️ x")], devDependencies := [] }).map
        (fun r => r.block)).countP blockHasWarningTitle = 1 := by
  refine ⟨by decide, by decide⟩

/-! ### Exact behaviour of the split scanner -/

/-- The scanner's result does not depend on the fuel once the fuel covers
the string's length. -/
theorem jsSplitGo_fuel {sep : Str} :
    ∀ {n m : Nat} {s acc : Str}, s.length ≤ n → s.length ≤ m →
      jsSplitGo sep n s acc = jsSplitGo sep m s acc := by
  intro n
  induction n with
  | zero =>
    intro m s acc hn _
    have hs : s = [] := List.eq_nil_of_length_eq_zero (Nat.le_zero.mp hn)
    subst hs
    cases m with
    | zero => rfl
    | succ m => simp [jsSplitGo]
  | succ n ih =>
    intro m s acc hn hm
    cases m with
    | zero =>
      have hs : s = [] := List.eq_nil_of_length_eq_zero (Nat.le_zero.mp hm)
      subst hs
      simp [jsSplitGo]
    | succ m =>
      cases s with
      | nil => rfl
      | cons c cs =>
        simp only [List.length_cons] at hn hm
        simp only [jsSplitGo]
        by_cases hp : sep.isPrefixOf (c :: cs) = true
        · rw [if_pos hp, if_pos hp]
          congr 1
          apply ih <;> rw [List.length_drop] <;> omega
        · rw [if_neg hp, if_neg hp]
          apply ih <;> omega

/-- No position strictly inside `a` starts an occurrence of `sep`, probing
against `a ++ sep` (the probe window always fits inside `a ++ sep`, which
makes the predicate independent of whatever follows). -/
def cleanBeforeSepB (sep : Str) : Str → Bool
  | [] => true
  | c :: cs => !(sep.isPrefixOf ((c :: cs) ++ sep)) && cleanBeforeSepB sep cs

/-- A prefix test only looks at the first `p.length` characters. -/
theorem isPrefixOf_append_window {p x : Str} (z : Str) (hlen : p.length ≤ x.length) :
    p.isPrefixOf (x ++ z) = p.isPrefixOf x := by
  by_cases hp : p <+: x
  · have h2 : p <+: x ++ z := hp.trans (List.prefix_append x z)
    rw [← List.isPrefixOf_iff_prefix] at hp h2
    rw [hp, h2]
  · have h2 : ¬ p <+: x ++ z := fun h =>
      hp (List.prefix_of_prefix_length_le h (List.prefix_append x z) hlen)
    have hp' : p.isPrefixOf x = false :=
      Bool.eq_false_iff.mpr (fun h => hp (List.isPrefixOf_iff_prefix.mp h))
    have h2' : p.isPrefixOf (x ++ z) = false :=
      Bool.eq_false_iff.mpr (fun h => h2 (List.isPrefixOf_iff_prefix.mp h))
    rw [hp', h2']

/-- The scanner emits `a` as one piece when `sep` follows it and no earlier
position starts an occurrence. -/
theorem jsSplitGo_emit {sep : Str} (hsep : sep ≠ []) :
    ∀ (a : Str), cleanBeforeSepB sep a = true → ∀ (b acc : Str) {n : Nat},
      (a ++ sep ++ b).length ≤ n →
      jsSplitGo sep n (a ++ sep ++ b) acc =
        (acc.reverse ++ a) :: jsSplitGo sep b.length b [] := by
  intro a
  induction a with
  | nil =>
    intro _ b acc n hn
    obtain ⟨c, sep', rfl⟩ : ∃ c sep', sep = c :: sep' := by
      cases sep with
      | nil => exact absurd rfl hsep
      | cons c sep' => exact ⟨c, sep', rfl⟩
    simp only [List.nil_append, List.length_append, List.length_cons] at hn
    cases n with
    | zero => omega
    | succ n =>
      rw [List.nil_append, List.cons_append]
      simp only [jsSplitGo]
      have hpre : (c :: sep').isPrefixOf (c :: (sep' ++ b)) = true := by
        rw [List.isPrefixOf_iff_prefix]
        exact ⟨b, by simp⟩
      rw [if_pos hpre]
      simp only [List.length_cons, Nat.add_sub_cancel, List.drop_left]
      rw [jsSplitGo_fuel (n := n) (m := b.length) (by omega) (le_refl _)]
      simp
  | cons x a' ih =>
    intro hclean b acc n hn
    simp only [cleanBeforeSepB, Bool.and_eq_true, Bool.not_eq_true'] at hclean
    obtain ⟨h0, h1⟩ := hclean
    simp only [List.length_append, List.length_cons] at hn
    cases n with
    | zero => omega
    | succ n =>
      rw [List.cons_append, List.cons_append]
      simp only [jsSplitGo]
      have hnp : sep.isPrefixOf (x :: (a' ++ sep ++ b)) = false := by
        have hw := isPrefixOf_append_window (p := sep) (x := x :: (a' ++ sep)) b
          (by simp; omega)
        rw [show (x :: (a' ++ sep)) ++ b = x :: (a' ++ sep ++ b) from rfl] at hw
        rw [hw]
        rw [show x :: (a' ++ sep) = (x :: a') ++ sep from rfl]
        exact h0
      rw [if_neg (by rw [hnp]; simp)]
      rw [ih h1 b (x :: acc) (n := n) (by simp; omega)]
      simp

/-- Without any occurrence of the separator the scanner returns the whole
string as the only piece. -/
theorem jsSplitGo_all {sep : Str} :
    ∀ (s acc : Str) {n : Nat}, s.length ≤ n → jsIncludes s sep = false →
      jsSplitGo sep n s acc = [acc.reverse ++ s] := by
  intro s
  induction s with
  | nil =>
    intro acc n _ _
    cases n <;> simp [jsSplitGo]
  | cons c cs ih =>
    intro acc n hn hinc
    simp only [List.length_cons] at hn
    cases n with
    | zero => omega
    | succ n =>
      simp only [jsIncludes, Bool.or_eq_false_iff] at hinc
      obtain ⟨h0, h1⟩ := hinc
      simp only [jsSplitGo]
      rw [if_neg (by simp [h0])]
      rw [ih (c :: acc) (n := n) (by omega) h1]
      simp

theorem jsSplit_emit {sep : Str} (hsep : sep ≠ []) {a : Str}
    (ha : cleanBeforeSepB sep a = true) (b : Str) :
    jsSplit (a ++ sep ++ b) sep = a :: jsSplit b sep := by
  have hne : sep.isEmpty = false := by
    cases sep with
    | nil => exact absurd rfl hsep
    | cons c cs => rfl
  unfold jsSplit
  rw [hne]
  simp only [Bool.false_eq_true, if_false]
  have := jsSplitGo_emit hsep a ha b [] (n := (a ++ sep ++ b).length) (le_refl _)
  simpa using this

theorem jsSplit_all {sep : Str} (hsep : sep ≠ []) {s : Str}
    (h : jsIncludes s sep = false) : jsSplit s sep = [s] := by
  have hne : sep.isEmpty = false := by
    cases sep with
    | nil => exact absurd rfl hsep
    | cons c cs => rfl
  unfold jsSplit
  rw [hne]
  simp only [Bool.false_eq_true, if_false]
  have := jsSplitGo_all s [] (n := s.length) (le_refl _) h
  simpa using this

/-- Single-character separators cannot span boundaries: absence of the
character implies a clean piece. -/
theorem cleanBeforeSepB_single {c : Char} {a : Str} (h : c ∉ a) :
    cleanBeforeSepB [c] a = true := by
  induction a with
  | nil => rfl
  | cons x xs ih =>
    simp only [cleanBeforeSepB, Bool.and_eq_true, Bool.not_eq_true']
    have hcx : ¬ (c = x) := fun e => h (e ▸ List.mem_cons_self x xs)
    refine ⟨?_, ih (fun hm => h (List.mem_cons_of_mem _ hm))⟩
    simp [List.isPrefixOf, beq_iff_eq, hcx]

theorem jsIncludes_single_of_not_mem {c : Char} {s : Str} (h : c ∉ s) :
    jsIncludes s [c] = false := by
  induction s with
  | nil => rfl
  | cons x xs ih =>
    have hcx : ¬ (c = x) := fun e => h (e ▸ List.mem_cons_self x xs)
    simp only [jsIncludes, Bool.or_eq_false_iff]
    exact ⟨by simp [List.isPrefixOf, beq_iff_eq, hcx],
      ih (fun hm => h (List.mem_cons_of_mem _ hm))⟩

theorem jsSplit_cons_single {c : Char} {a : Str} (ha : c ∉ a) (rest : Str) :
    jsSplit (a ++ c :: rest) [c] = a :: jsSplit rest [c] := by
  have := @jsSplit_emit [c] (by simp) a (cleanBeforeSepB_single ha) rest
  simpa using this

theorem jsSplit_single_str {c : Char} {s : Str} (h : c ∉ s) : jsSplit s [c] = [s] :=
  jsSplit_all (by simp) (jsIncludes_single_of_not_mem h)

/-- The first piece of a single-character split is the longest
`c`-free prefix. -/
theorem jsSplit_head_single (c : Char) (s : Str) :
    (jsSplit s [c]).head? = some (s.takeWhile (fun x => x != c)) := by
  have hsplit := List.takeWhile_append_dropWhile (p := fun x => x != c) (l := s)
  have hmem : c ∉ s.takeWhile (fun x => x != c) := by
    intro hm
    have := List.mem_takeWhile_imp hm
    simp at this
  rcases hdrop : s.dropWhile (fun x => x != c) with _ | ⟨y, rest⟩
  · rw [hdrop] at hsplit
    simp only [List.append_nil] at hsplit
    have hnotmem : c ∉ s := hsplit ▸ hmem
    rw [jsSplit_single_str hnotmem, hsplit]
    rfl
  · have hy : y = c := by
      have hh := List.head?_dropWhile_not (fun x => x != c) s
      rw [hdrop] at hh
      simpa using hh
    rw [hdrop] at hsplit
    rw [hy] at hsplit
    rw [show jsSplit s [c] = jsSplit (s.takeWhile (fun x => x != c) ++ c :: rest) [c] from by
      rw [hsplit]]
    rw [jsSplit_cons_single hmem rest]
    rfl

/-! ### Behaviour of `jsTrim` on well-formed fields -/

theorem jsTrim_nil : jsTrim [] = [] := rfl

/-- A string trims to empty exactly when it is all whitespace. -/
theorem jsTrim_eq_nil_iff {s : Str} :
    jsTrim s = [] ↔ ∀ c ∈ s, c.isWhitespace = true := by
  unfold jsTrim jsTrimRight jsTrimLeft
  constructor
  · intro h c hc
    have h' : (s.dropWhile Char.isWhitespace).reverse.dropWhile Char.isWhitespace = [] := by
      have := congrArg List.reverse h
      simpa using this
    have hall : ∀ c ∈ (s.dropWhile Char.isWhitespace).reverse, c.isWhitespace = true :=
      List.dropWhile_eq_nil_iff.mp h'
    have hsplit := List.takeWhile_append_dropWhile (p := Char.isWhitespace) (l := s)
    rw [← hsplit] at hc
    rcases List.mem_append.mp hc with hm | hm
    · exact List.mem_takeWhile_imp hm
    · exact hall c (List.mem_reverse.mpr hm)
  · intro h
    have h1 : s.dropWhile Char.isWhitespace = [] :=
      List.dropWhile_eq_nil_iff.mpr (fun c hc => h c hc)
    rw [h1]
    rfl

/-- A string containing one non-whitespace character does not trim away. -/
theorem jsTrim_isEmpty_false {s : Str} {c : Char} (hc : c ∈ s)
    (hw : c.isWhitespace = false) : (jsTrim s).isEmpty = false := by
  rcases h : (jsTrim s).isEmpty with _ | _
  · rfl
  · exfalso
    have : jsTrim s = [] := List.isEmpty_iff.mp h
    have := jsTrim_eq_nil_iff.mp this c hc
    rw [hw] at this
    cases this

/-- Trimmed strings are both left- and right-trimmed. -/
theorem jsTrim_parts {s : Str} (h : jsTrim s = s) :
    jsTrimLeft s = s ∧ jsTrimRight s = s := by
  have hsuffix : jsTrimLeft s <:+ s := List.dropWhile_suffix _
  have hlen2 : (jsTrimRight (jsTrimLeft s)).length ≤ (jsTrimLeft s).length := by
    unfold jsTrimRight
    rw [List.length_reverse]
    have := (List.dropWhile_suffix (l := (jsTrimLeft s).reverse) Char.isWhitespace).length_le
    simpa using this
  have hlen : (jsTrimLeft s).length = s.length := by
    have hh := congrArg List.length h
    unfold jsTrim at hh
    have := hsuffix.length_le
    omega
  have h1 : jsTrimLeft s = s := hsuffix.eq_of_length hlen
  refine ⟨h1, ?_⟩
  unfold jsTrim at h
  rw [h1] at h
  exact h

/-- A right-trimmed non-empty string keeps any text prepended to it. -/
theorem jsTrimRight_append {x s : Str} (h : jsTrimRight s = s) (hne : s ≠ []) :
    jsTrimRight (x ++ s) = x ++ s := by
  have hrev : s.reverse.dropWhile Char.isWhitespace = s.reverse := by
    have := congrArg List.reverse h
    unfold jsTrimRight at this
    simpa using this
  rcases hs : s.reverse with _ | ⟨c, t⟩
  · exact absurd (List.reverse_eq_nil_iff.mp hs) hne
  · have hcw : c.isWhitespace = false := by
      rcases hcw : c.isWhitespace with _ | _
      · rfl
      · exfalso
        rw [hs, List.dropWhile_cons_of_pos hcw] at hrev
        have := congrArg List.length hrev
        have := (List.dropWhile_suffix (l := t) Char.isWhitespace).length_le
        simp at *
        omega
    unfold jsTrimRight
    rw [List.reverse_append, hs, List.cons_append, List.dropWhile_cons_of_neg (by simp [hcw])]
    rw [← List.cons_append, ← hs, List.reverse_append]
    simp

/-- Prepending a block of text that starts with a non-whitespace character
to a trimmed non-empty string leaves the result trimmed. -/
theorem jsTrim_prepend {x s : Str} (c : Char) (t : Str) (hx : x = c :: t)
    (hcw : c.isWhitespace = false) (h : jsTrim s = s) (hne : s ≠ []) :
    jsTrim (x ++ s) = x ++ s := by
  obtain ⟨-, h2⟩ := jsTrim_parts h
  unfold jsTrim
  rw [hx, List.cons_append, show jsTrimLeft (c :: (t ++ s)) = c :: (t ++ s) from by
    unfold jsTrimLeft
    rw [List.dropWhile_cons_of_neg (by simp [hcw])]]
  rw [← List.cons_append, ← hx]
  exact jsTrimRight_append h2 hne

/-! ### The line structure of one rendered entry -/

/-- Join lines with single newlines (the inverse view of the line split). -/
def joinLines : List Str → Str
  | [] => []
  | [l] => l
  | l :: ls => l ++ '\n' :: joinLines ls

theorem joinLines_append : ∀ (L₁ : List Str), L₁ ≠ [] → ∀ (L₂ : List Str), L₂ ≠ [] →
    joinLines (L₁ ++ L₂) = joinLines L₁ ++ '\n' :: joinLines L₂ := by
  intro L₁
  induction L₁ with
  | nil => intro h; exact absurd rfl h
  | cons x xs ih =>
    intro _ L₂ hL₂
    cases xs with
    | nil =>
      cases L₂ with
      | nil => exact absurd rfl hL₂
      | cons y ys => simp [joinLines]
    | cons x' xs' =>
      have hh := ih (by simp) L₂ hL₂
      show x ++ '\n' :: joinLines (x' :: xs' ++ L₂) =
        (x ++ '\n' :: joinLines (x' :: xs')) ++ '\n' :: joinLines L₂
      rw [hh]
      simp

/-- The split on `"\n"` recovers the lines of a newline-free line list. -/
theorem jsSplit_joinLines :
    ∀ (L : List Str), (∀ l ∈ L, ('\n') ∉ l) → L ≠ [] →
      jsSplit (joinLines L) (str ("\n")) = L := by
  intro L
  induction L with
  | nil => intro _ h; exact absurd rfl h
  | cons l ls ih =>
    intro hnl _
    cases ls with
    | nil =>
      rw [show joinLines [l] = l from rfl, show str ("\n") = ['\n'] from rfl]
      exact jsSplit_single_str (hnl l (by simp))
    | cons l' ls' =>
      rw [show joinLines (l :: l' :: ls') = l ++ '\n' :: joinLines (l' :: ls') from rfl,
        show str ("\n") = ['\n'] from rfl]
      rw [jsSplit_cons_single (hnl l (by simp)) _]
      rw [show jsSplit (joinLines (l' :: ls')) ['\n']
          = jsSplit (joinLines (l' :: ls')) (str ("\n")) from rfl]
      rw [ih (fun x hx => hnl x (by simp [hx])) (by simp)]

/-- The description line: the description or its placeholder. -/
def descLine (r : CachedDependencyInfo) : Str :=
  if r.description.isEmpty then str ("No description available.") else r.description

/-- The NPM link line of a rendered entry. -/
def npmLine (r : CachedDependencyInfo) : Str :=
  str ("- **NPM:** [") ++ r.npmLink ++ str ("](") ++ r.npmLink ++ str (")")

/-- The license link line of a rendered entry. -/
def licenseLine (r : CachedDependencyInfo) : Str :=
  str ("- **License:** [") ++ r.licenseLink ++ str ("](") ++ r.licenseLink ++ str (")")

/-- The cache timestamp line of a rendered entry. -/
def cacheLine (r : CachedDependencyInfo) : Str :=
  str ("- *Cache:* ") ++ r.lastUpdated

/-- The review note line of a non-permissive entry. -/
def noteLine : Str :=
  str ("**Note:** This license may not be permissive. Please review before use.")

/-- The raw (unfiltered) lines of one rendered entry body. -/
def entryLines (r : CachedDependencyInfo) : List Str :=
  [(if r.isPermissive then [] else str ("⚠️ ")) ++ r.name,
   [], descLine r, [], npmLine r, licenseLine r, cacheLine r] ++
  (if r.isPermissive then [] else [[], noteLine]) ++
  [[], str ("---")]

/-- Everything of a rendered block after the `"### "` marker. -/
def entryBody (r : CachedDependencyInfo) : Str := joinLines (entryLines r)

/-- The Report Formatter's block is the marker followed by the joined
entry lines. -/
theorem formatRecord_eq_entry (r : CachedDependencyInfo) :
    formatRecord r = str ("### ") ++ entryBody r := by
  unfold formatRecord formatDependencyInfo entryBody entryLines descLine npmLine
    licenseLine cacheLine noteLine
  cases hperm : r.isPermissive <;> cases hdesc : r.description.isEmpty <;>
    simp only [Bool.false_eq_true, if_false, if_true, hdesc, joinLines,
      List.cons_append, List.nil_append, List.append_nil] <;>
    simp [joinLines,
      show str ("\n\n") = '\n' :: '\n' :: [] from rfl,
      show str ("\n\n- **NPM:** [") = '\n' :: '\n' :: str ("- **NPM:** [") from rfl,
      show str (")\n- **License:** [") = ')' :: '\n' :: str ("- **License:** [") from rfl,
      show str (")\n- *Cache:* ") = ')' :: '\n' :: str ("- *Cache:* ") from rfl,
      show str ("\n\n**Note:** This license may not be permissive. Please review before use.")
        = '\n' :: '\n' :: str ("**Note:** This license may not be permissive. Please review before use.")
        from rfl,
      show str ("\n\n---") = '\n' :: '\n' :: str ("---") from rfl,
      show str (")") = [')'] from rfl,
      List.append_assoc]

/-! ### Parsing one rendered entry back -/

theorem isEmpty_false_of_ne_nil {α : Type} {l : List α} (h : l ≠ []) :
    l.isEmpty = false := by
  cases l with
  | nil => exact absurd rfl h
  | cons a t => rfl

theorem jsReplaceFirst_eq_self {pat repl s : Str} (h : jsIncludes s pat = false) :
    jsReplaceFirst pat repl s = s := by
  induction s with
  | nil =>
    unfold jsIncludes at h
    unfold jsReplaceFirst
    rw [h]
    simp
  | cons c cs ih =>
    simp only [jsIncludes, Bool.or_eq_false_iff] at h
    obtain ⟨h0, h1⟩ := h
    unfold jsReplaceFirst
    rw [if_neg (by rw [h0]; simp)]
    rw [ih h1]

theorem jsIncludes_mono {s p₁ p₂ : Str} (hp : p₁ <+: p₂) (h : jsIncludes s p₂ = true) :
    jsIncludes s p₁ = true := by
  induction s with
  | nil =>
    simp only [jsIncludes, List.isEmpty_iff] at h ⊢
    rw [h] at hp
    exact List.prefix_nil.mp hp
  | cons c cs ih =>
    simp only [jsIncludes, Bool.or_eq_true] at h ⊢
    rcases h with h | h
    · left
      rw [List.isPrefixOf_iff_prefix] at h ⊢
      exact hp.trans h
    · exact Or.inr (ih h)

theorem jsReplaceFirst_of_prefix {pat repl rest : Str} (hpat : pat ≠ []) :
    jsReplaceFirst pat repl (pat ++ rest) = repl ++ rest := by
  obtain ⟨c, pt, rfl⟩ : ∃ c pt, pat = c :: pt := by
    cases pat with
    | nil => exact absurd rfl hpat
    | cons c pt => exact ⟨c, pt, rfl⟩
  rw [List.cons_append]
  unfold jsReplaceFirst
  rw [if_pos (by
    rw [List.isPrefixOf_iff_prefix]
    exact ⟨rest, by simp⟩)]
  congr 1
  simp [List.drop_left']

/-- The field-level well-formedness of one record: non-empty trimmed
single-line name and description neither of which mimics a cache line or
(for the name) carries the warning glyph, single-line links without `(`,
and a single-line timestamp. -/
def wfRecordFields (r : CachedDependencyInfo) : Bool :=
  decide (r.name ≠ [] ∧ jsTrim r.name = r.name ∧ jsIncludes r.name (str ("⚠️")) = false ∧
    ('\n') ∉ r.name ∧ (str ("- *Cache:*")).isPrefixOf r.name = false ∧
    r.description ≠ [] ∧ jsTrim r.description = r.description ∧
    ('\n') ∉ r.description ∧ (str ("- *Cache:*")).isPrefixOf r.description = false ∧
    ('\n') ∉ r.npmLink ∧ ('(') ∉ r.npmLink ∧
    ('\n') ∉ r.licenseLink ∧ ('(') ∉ r.licenseLink ∧
    ('\n') ∉ r.lastUpdated)

/-- The non-blank filter keeps exactly the five (or six) content lines of
an entry, in order, plus whatever non-blank lines follow. -/
theorem entry_lines_filtered (r : CachedDependencyInfo) (hwf : wfRecordFields r = true)
    (tailLines : List Str) (htail : ∀ l ∈ tailLines, ('\n') ∉ l) :
    (jsSplit (joinLines (entryLines r ++ tailLines)) (str ("\n"))).filter
        (fun l => !(jsTrim l).isEmpty) =
      ([(if r.isPermissive then [] else str ("⚠️ ")) ++ r.name, descLine r,
        npmLine r, licenseLine r, cacheLine r] ++
       (if r.isPermissive then [] else [noteLine]) ++ [str ("---")]) ++
      tailLines.filter (fun l => !(jsTrim l).isEmpty) := by
  simp only [wfRecordFields, decide_eq_true_eq] at hwf
  obtain ⟨hn1, hn2, hn3, hn4, hn5, hd1, hd2, hd3, hd4, hnp1, hnp2, hl1, hl2, ht1⟩ := hwf
  have hnl : ∀ l ∈ entryLines r ++ tailLines, ('\n') ∉ l := by
    intro l hl
    rcases List.mem_append.mp hl with hl | hl
    · unfold entryLines at hl
      cases hperm : r.isPermissive <;> rw [hperm] at hl <;>
        simp only [if_false, if_true, Bool.false_eq_true, List.cons_append,
          List.nil_append, List.mem_cons, List.mem_singleton, List.not_mem_nil,
          or_false] at hl
      · rcases hl with rfl | rfl | rfl | rfl | rfl | rfl | rfl | rfl | rfl | rfl | rfl
        · intro hm
          rcases List.mem_append.mp hm with hm | hm
          · revert hm; decide
          · exact hn4 hm
        · simp
        · unfold descLine
          by_cases hde : r.description.isEmpty <;> simp [hde]
          · decide
          · exact hd3
        · simp
        · unfold npmLine
          intro hm
          simp only [List.append_assoc, List.mem_append] at hm
          rcases hm with hm | hm | hm | hm | hm
          · revert hm; decide
          · exact hnp1 hm
          · revert hm; decide
          · exact hnp1 hm
          · revert hm; decide
        · unfold licenseLine
          intro hm
          simp only [List.append_assoc, List.mem_append] at hm
          rcases hm with hm | hm | hm | hm | hm
          · revert hm; decide
          · exact hl1 hm
          · revert hm; decide
          · exact hl1 hm
          · revert hm; decide
        · unfold cacheLine
          intro hm
          rcases List.mem_append.mp hm with hm | hm
          · revert hm; decide
          · exact ht1 hm
        · simp
        · unfold noteLine; decide
        · simp
        · decide
      · rcases hl with rfl | rfl | rfl | rfl | rfl | rfl | rfl | rfl | rfl
        · intro hm
          try simp only [List.nil_append] at hm
          exact hn4 hm
        · simp
        · unfold descLine
          by_cases hde : r.description.isEmpty <;> simp [hde]
          · decide
          · exact hd3
        · simp
        · unfold npmLine
          intro hm
          simp only [List.append_assoc, List.mem_append] at hm
          rcases hm with hm | hm | hm | hm | hm
          · revert hm; decide
          · exact hnp1 hm
          · revert hm; decide
          · exact hnp1 hm
          · revert hm; decide
        · unfold licenseLine
          intro hm
          simp only [List.append_assoc, List.mem_append] at hm
          rcases hm with hm | hm | hm | hm | hm
          · revert hm; decide
          · exact hl1 hm
          · revert hm; decide
          · exact hl1 hm
          · revert hm; decide
        · unfold cacheLine
          intro hm
          rcases List.mem_append.mp hm with hm | hm
          · revert hm; decide
          · exact ht1 hm
        · simp
        · decide
    · exact htail l hl
  rw [jsSplit_joinLines _ hnl (by unfold entryLines; cases r.isPermissive <;> simp)]
  rw [List.filter_append]
  congr 1
  have hpred0 : ∀ x : Str, x ≠ [] → jsTrim x = x → (!(jsTrim x).isEmpty) = true := by
    intro x h1 h2
    rw [h2, isEmpty_false_of_ne_nil h1]
    rfl
  have hdash : ∀ x y : Str, ('-') ∈ x → (!(jsTrim (x ++ y)).isEmpty) = true := by
    intro x y hx
    rw [jsTrim_isEmpty_false (List.mem_append_left y hx) (by decide)]
    rfl
  unfold entryLines
  cases hperm : r.isPermissive <;>
    simp only [if_false, if_true, Bool.false_eq_true, List.cons_append, List.nil_append]
  · rw [List.filter_cons_of_pos (by
      rw [jsTrim_isEmpty_false (List.mem_append_left r.name (show ('⚠') ∈ str ("⚠️ ") by decide))
        (by decide)]
      rfl)]
    rw [List.filter_cons_of_neg (by simp [jsTrim_nil])]
    rw [List.filter_cons_of_pos (by
      unfold descLine
      by_cases hde : r.description.isEmpty
      · rw [if_pos hde]; decide
      · rw [if_neg hde]; exact hpred0 _ hd1 hd2)]
    rw [List.filter_cons_of_neg (by simp [jsTrim_nil])]
    rw [List.filter_cons_of_pos (by
      unfold npmLine
      simp only [List.append_assoc]
      exact hdash _ _ (by decide))]
    rw [List.filter_cons_of_pos (by
      unfold licenseLine
      simp only [List.append_assoc]
      exact hdash _ _ (by decide))]
    rw [List.filter_cons_of_pos (by
      unfold cacheLine
      exact hdash _ _ (by decide))]
    rw [List.filter_cons_of_neg (by simp [jsTrim_nil])]
    rw [List.filter_cons_of_pos (by unfold noteLine; decide)]
    rw [List.filter_cons_of_neg (by simp [jsTrim_nil])]
    rw [List.filter_cons_of_pos (by decide)]
    rfl
  · rw [List.filter_cons_of_pos (by
      try simp only [List.nil_append]
      exact hpred0 _ hn1 hn2)]
    rw [List.filter_cons_of_neg (by simp [jsTrim_nil])]
    rw [List.filter_cons_of_pos (by
      unfold descLine
      by_cases hde : r.description.isEmpty
      · rw [if_pos hde]; decide
      · rw [if_neg hde]; exact hpred0 _ hd1 hd2)]
    rw [List.filter_cons_of_neg (by simp [jsTrim_nil])]
    rw [List.filter_cons_of_pos (by
      unfold npmLine
      simp only [List.append_assoc]
      exact hdash _ _ (by decide))]
    rw [List.filter_cons_of_pos (by
      unfold licenseLine
      simp only [List.append_assoc]
      exact hdash _ _ (by decide))]
    rw [List.filter_cons_of_pos (by
      unfold cacheLine
      exact hdash _ _ (by decide))]
    rw [List.filter_cons_of_neg (by simp [jsTrim_nil])]
    rw [List.filter_cons_of_pos (by decide)]
    rfl

/-- What the Cache Reader makes of a written timestamp: everything after
the first colon is cut off, the template's `"* "` lead survives the trim
(the asterisk is deleted only afterwards, leaving the space), and all
asterisks are removed. -/
def rereadTimestamp (ts : Str) : Str :=
  jsStripStars (jsTrim ('*' :: ' ' :: ts.takeWhile (fun x => x != ':')))

/-- The record as it comes back out of the Cache Reader: identical except
for the re-read timestamp. -/
def reparsedRecord (r : CachedDependencyInfo) : CachedDependencyInfo :=
  { r with lastUpdated := rereadTimestamp r.lastUpdated }

/-- Parsing one rendered well-formed entry (with arbitrary newline-free
trailing lines) reconstructs the record up to the timestamp transform. -/
theorem parseCachedEntry_wf (r : CachedDependencyInfo) (hwf : wfRecordFields r = true)
    (tailLines : List Str) (htail : ∀ l ∈ tailLines, ('\n') ∉ l) :
    parseCachedEntry (joinLines (entryLines r ++ tailLines)) = some (reparsedRecord r) := by
  have hlines := entry_lines_filtered r hwf tailLines htail
  simp only [wfRecordFields, decide_eq_true_eq] at hwf
  obtain ⟨hn1, hn2, hn3, hn4, hn5, hd1, hd2, hd3, hd4, hnp1, hnp2, hl1, hl2, ht1⟩ := hwf
  have hdescEmpty : r.description.isEmpty = false := isEmpty_false_of_ne_nil hd1
  have hdescLine : descLine r = r.description := by
    unfold descLine
    rw [hdescEmpty]
    simp
  -- the split of the link lines on "("
  have hnotin1 : ('(') ∉ str ("- **NPM:** [") ++ r.npmLink ++ str ("]") := by
    intro hm
    simp only [List.append_assoc, List.mem_append] at hm
    rcases hm with hm | hm | hm
    · revert hm; decide
    · exact hnp2 hm
    · revert hm; decide
  have hnotin2 : ('(') ∉ r.npmLink ++ str (")") := by
    intro hm
    rcases List.mem_append.mp hm with hm | hm
    · exact hnp2 hm
    · revert hm; decide
  have hnpmsplit : jsSplit (npmLine r) (str ("(")) =
      [str ("- **NPM:** [") ++ r.npmLink ++ str ("]"), r.npmLink ++ str (")")] := by
    rw [show npmLine r =
        (str ("- **NPM:** [") ++ r.npmLink ++ str ("]")) ++ '(' :: (r.npmLink ++ str (")"))
      from by
        unfold npmLine
        simp [List.append_assoc, show str ("](") = ']' :: ['('] from rfl,
          show str ("]") = [']'] from rfl]]
    rw [show str ("(") = ['('] from rfl]
    rw [jsSplit_cons_single hnotin1 _, jsSplit_single_str hnotin2]
  have hnotin3 : ('(') ∉ str ("- **License:** [") ++ r.licenseLink ++ str ("]") := by
    intro hm
    simp only [List.append_assoc, List.mem_append] at hm
    rcases hm with hm | hm | hm
    · revert hm; decide
    · exact hl2 hm
    · revert hm; decide
  have hnotin4 : ('(') ∉ r.licenseLink ++ str (")") := by
    intro hm
    rcases List.mem_append.mp hm with hm | hm
    · exact hl2 hm
    · revert hm; decide
  have hlicsplit : jsSplit (licenseLine r) (str ("(")) =
      [str ("- **License:** [") ++ r.licenseLink ++ str ("]"), r.licenseLink ++ str (")")] := by
    rw [show licenseLine r =
        (str ("- **License:** [") ++ r.licenseLink ++ str ("]")) ++
          '(' :: (r.licenseLink ++ str (")"))
      from by
        unfold licenseLine
        simp [List.append_assoc, show str ("](") = ']' :: ['('] from rfl,
          show str ("]") = [']'] from rfl]]
    rw [show str ("(") = ['('] from rfl]
    rw [jsSplit_cons_single hnotin3 _, jsSplit_single_str hnotin4]
  -- the timestamp extraction from the cache line
  have hcacheval : (jsSplit (cacheLine r) (str (":")))[1]? =
      some ('*' :: ' ' :: (r.lastUpdated.takeWhile (fun x => x != ':'))) := by
    rw [show cacheLine r = str ("- *Cache") ++ ':' :: ('*' :: ' ' :: r.lastUpdated) from by
      unfold cacheLine
      rfl]
    rw [show str (":") = [':'] from rfl]
    rw [jsSplit_cons_single (by decide) _]
    rw [List.getElem?_cons_succ, ← List.head?_eq_getElem?]
    rw [jsSplit_head_single]
    rw [List.takeWhile_cons_of_pos (by decide), List.takeWhile_cons_of_pos (by decide)]
  -- prefix tests of the cache-line scan
  have hpnpm : (str ("- *Cache:*")).isPrefixOf (npmLine r) = false := by
    rw [show npmLine r =
        str ("- **NPM:** [") ++ (r.npmLink ++ (str ("](") ++ (r.npmLink ++ str (")"))))
      from by unfold npmLine; simp [List.append_assoc]]
    rw [isPrefixOf_append_window _ (by decide)]
    decide
  have hplic : (str ("- *Cache:*")).isPrefixOf (licenseLine r) = false := by
    rw [show licenseLine r =
        str ("- **License:** [") ++
          (r.licenseLink ++ (str ("](") ++ (r.licenseLink ++ str (")"))))
      from by unfold licenseLine; simp [List.append_assoc]]
    rw [isPrefixOf_append_window _ (by decide)]
    decide
  have hpdesc : (str ("- *Cache:*")).isPrefixOf (descLine r) = false := by
    rw [hdescLine]
    exact hd4
  have hpcache : (str ("- *Cache:*")).isPrefixOf (cacheLine r) = true := by
    rw [show cacheLine r = str ("- *Cache:*") ++ (' ' :: r.lastUpdated) from by
      unfold cacheLine
      rfl]
    rw [List.isPrefixOf_iff_prefix]
    exact List.prefix_append _ _
  -- the reconstructed name
  have hnoglyphsp : jsIncludes r.name (str ("⚠️ ")) = false := by
    rcases h : jsIncludes r.name (str ("⚠️ ")) with _ | _
    · rfl
    · exfalso
      have := @jsIncludes_mono r.name (str ("⚠️")) (str ("⚠️ ")) (by decide) h
      rw [hn3] at this
      cases this
  cases hperm : r.isPermissive with
  | false =>
    rw [hperm] at hlines
    simp only [Bool.false_eq_true, if_false, List.cons_append, List.nil_append,
      List.append_assoc] at hlines
    have hl0trim : jsTrim (str ("⚠️ ") ++ r.name) = str ("⚠️ ") ++ r.name :=
      jsTrim_prepend '⚠' ('️' :: [' ']) rfl (by decide) hn2 hn1
    have hl0name : jsReplaceFirst (str ("⚠️ ")) [] (jsTrim (str ("⚠️ ") ++ r.name))
        = r.name := by
      rw [hl0trim, jsReplaceFirst_of_prefix (by decide)]
      simp
    have hl0perm : jsIncludes (str ("⚠️ ") ++ r.name) (str ("⚠️")) = true :=
      jsIncludes_iff.mpr ⟨[], ' ' :: r.name, rfl⟩
    have hpl0 : (str ("- *Cache:*")).isPrefixOf (str ("⚠️ ") ++ r.name) = false := by
      rw [show str ("⚠️ ") ++ r.name = '⚠' :: ('️' :: (' ' :: r.name)) from rfl]
      rw [show str ("- *Cache:*") = '-' :: str (" *Cache:*") from rfl]
      simp [List.isPrefixOf, beq_iff_eq]
    have hfind :
        ((str ("⚠️ ") ++ r.name) :: descLine r :: npmLine r :: licenseLine r ::
          cacheLine r :: noteLine :: str ("---") ::
            tailLines.filter (fun l => !(jsTrim l).isEmpty)).find?
          (fun l => (str ("- *Cache:*")).isPrefixOf l) = some (cacheLine r) := by
      rw [List.find?_cons_of_neg _ (by simp [hpl0]),
        List.find?_cons_of_neg _ (by simp [hpdesc]),
        List.find?_cons_of_neg _ (by simp [hpnpm]),
        List.find?_cons_of_neg _ (by simp [hplic]),
        List.find?_cons_of_pos _ (by simp [hpcache])]
    simp only [parseCachedEntry]
    rw [hlines]
    simp only [List.getElem?_cons_zero, List.getElem?_cons_succ, Option.bind_eq_bind,
      Option.some_bind, hfind, hnpmsplit, hlicsplit, hcacheval]
    simp only [List.getElem?_cons_zero, List.getElem?_cons_succ, Option.bind_eq_bind,
      Option.some_bind, Option.getD_some]
    rw [hl0name]
    simp only [Option.pure_def, Option.some.injEq]
    unfold reparsedRecord rereadTimestamp
    simp [CachedDependencyInfo.mk.injEq, show str (")") = [')'] from rfl,
      List.dropLast_concat, hdescLine, hd2, hl0perm, hperm]
  | true =>
    rw [hperm] at hlines
    simp only [if_true, List.cons_append, List.nil_append, List.append_assoc] at hlines
    have hl0name : jsReplaceFirst (str ("⚠️ ")) [] (jsTrim r.name) = r.name := by
      rw [hn2, jsReplaceFirst_eq_self hnoglyphsp]
    have hfind :
        (r.name :: descLine r :: npmLine r :: licenseLine r ::
          cacheLine r :: str ("---") ::
            tailLines.filter (fun l => !(jsTrim l).isEmpty)).find?
          (fun l => (str ("- *Cache:*")).isPrefixOf l) = some (cacheLine r) := by
      rw [List.find?_cons_of_neg _ (by simp [hn5]),
        List.find?_cons_of_neg _ (by simp [hpdesc]),
        List.find?_cons_of_neg _ (by simp [hpnpm]),
        List.find?_cons_of_neg _ (by simp [hplic]),
        List.find?_cons_of_pos _ (by simp [hpcache])]
    simp only [parseCachedEntry]
    rw [hlines]
    simp only [List.getElem?_cons_zero, List.getElem?_cons_succ, Option.bind_eq_bind,
      Option.some_bind, hfind, hnpmsplit, hlicsplit, hcacheval]
    simp only [List.getElem?_cons_zero, List.getElem?_cons_succ, Option.bind_eq_bind,
      Option.some_bind, Option.getD_some]
    rw [hl0name]
    simp only [Option.pure_def, Option.some.injEq]
    unfold reparsedRecord rereadTimestamp
    simp [CachedDependencyInfo.mk.injEq, show str (")") = [')'] from rfl,
      List.dropLast_concat, hdescLine, hd2, hn3, hperm]

/-! ### Re-parsing a whole rendered report -/

/-- Well-formedness of one record for the round trip: well-formed fields,
no `"### "` marker arising anywhere in its rendered body followed by a
blank line, and none arising in its body followed by the footer. -/
def wfRecord (r : CachedDependencyInfo) : Bool :=
  wfRecordFields r &&
  cleanBeforeSepB (str ("### ")) (entryBody r ++ str ("\n\n")) &&
  !jsIncludes (entryBody r ++ reportFooter) (str ("### "))

/-- The document after the header: entry bodies joined by blank lines and
entry markers, closed by the footer. -/
def entriesDoc : List CachedDependencyInfo → Str
  | [] => reportFooter
  | [r] => entryBody r ++ reportFooter
  | r :: rest => entryBody r ++ str ("\n\n") ++ str ("### ") ++ entriesDoc rest

/-- The pieces the reader's split produces for those entries. -/
def entryPieces : List CachedDependencyInfo → List Str
  | [] => []
  | [r] => [entryBody r ++ reportFooter]
  | r :: rest => (entryBody r ++ str ("\n\n")) :: entryPieces rest

theorem entryLines_ne_nil (r : CachedDependencyInfo) : entryLines r ≠ [] := by
  unfold entryLines
  cases r.isPermissive <;> simp

theorem joinBlocks_decompose :
    ∀ (records : List CachedDependencyInfo), records ≠ [] →
      joinSep (str ("\n\n")) (records.map formatRecord) ++ reportFooter =
        str ("### ") ++ entriesDoc records := by
  intro records
  induction records with
  | nil => intro h; exact absurd rfl h
  | cons r rest ih =>
    intro _
    cases rest with
    | nil =>
      show joinSep (str ("\n\n")) [formatRecord r] ++ reportFooter = _
      rw [show joinSep (str ("\n\n")) [formatRecord r] = formatRecord r from rfl]
      rw [formatRecord_eq_entry]
      rw [show entriesDoc [r] = entryBody r ++ reportFooter from rfl]
      simp [List.append_assoc]
    | cons r' rest' =>
      rw [show joinSep (str ("\n\n")) ((r :: r' :: rest').map formatRecord) =
          formatRecord r ++ str ("\n\n") ++ joinSep (str ("\n\n")) ((r' :: rest').map formatRecord)
        from rfl]
      rw [show entriesDoc (r :: r' :: rest') =
          entryBody r ++ str ("\n\n") ++ str ("### ") ++ entriesDoc (r' :: rest') from rfl]
      rw [formatRecord_eq_entry]
      rw [List.append_assoc, List.append_assoc, ih (by simp)]
      simp [List.append_assoc]

theorem renderReport_decompose (ts : Str) (records : List CachedDependencyInfo)
    (hne : records ≠ []) :
    renderReport ts records =
      reportHeader ts records.length (records.countP (fun r => !r.isPermissive)) ++
        (str ("### ") ++ entriesDoc records) := by
  unfold renderReport
  rw [List.append_assoc, joinBlocks_decompose records hne]

theorem jsSplit_entriesDoc :
    ∀ (records : List CachedDependencyInfo), records ≠ [] →
      (∀ r ∈ records, wfRecord r = true) →
      jsSplit (entriesDoc records) (str ("### ")) = entryPieces records := by
  intro records
  induction records with
  | nil => intro h; exact absurd rfl h
  | cons r rest ih =>
    intro _ hwf
    have hr := hwf r (by simp)
    simp only [wfRecord, Bool.and_eq_true, Bool.not_eq_true'] at hr
    obtain ⟨⟨-, hclean⟩, hninc⟩ := hr
    cases rest with
    | nil =>
      rw [show entriesDoc [r] = entryBody r ++ reportFooter from rfl,
        show entryPieces [r] = [entryBody r ++ reportFooter] from rfl]
      exact jsSplit_all (by decide) hninc
    | cons r' rest' =>
      rw [show entriesDoc (r :: r' :: rest') =
          (entryBody r ++ str ("\n\n")) ++ str ("### ") ++ entriesDoc (r' :: rest') from by
        simp [entriesDoc, List.append_assoc],
        show entryPieces (r :: r' :: rest') =
          (entryBody r ++ str ("\n\n")) :: entryPieces (r' :: rest') from rfl]
      rw [jsSplit_emit (by decide) hclean _]
      rw [ih (by simp) (fun x hx => hwf x (by simp [hx]))]

theorem parseAllEntries_pieces :
    ∀ (records : List CachedDependencyInfo), (∀ r ∈ records, wfRecord r = true) →
      parseAllEntries (entryPieces records) = some (records.map reparsedRecord) := by
  intro records
  induction records with
  | nil => intro _; rfl
  | cons r rest ih =>
    intro hwf
    have hr := hwf r (by simp)
    simp only [wfRecord, Bool.and_eq_true] at hr
    obtain ⟨⟨hfields, -⟩, -⟩ := hr
    cases rest with
    | nil =>
      rw [show entryPieces [r] = [entryBody r ++ reportFooter] from rfl]
      have hjoin : entryBody r ++ reportFooter =
          joinLines (entryLines r ++
            [[], str ("---"), [], str ("End of Dependencies List")]) := by
        rw [joinLines_append _ (entryLines_ne_nil r) _ (by simp)]
        rfl
      rw [hjoin]
      rw [show parseAllEntries [joinLines (entryLines r ++
          [[], str ("---"), [], str ("End of Dependencies List")])] =
        (parseCachedEntry (joinLines (entryLines r ++
          [[], str ("---"), [], str ("End of Dependencies List")]))).bind
          (fun c => some [c]) from rfl]
      rw [parseCachedEntry_wf r hfields _ (by decide)]
      rfl
    | cons r' rest' =>
      rw [show entryPieces (r :: r' :: rest') =
          (entryBody r ++ str ("\n\n")) :: entryPieces (r' :: rest') from rfl]
      have hjoin : entryBody r ++ str ("\n\n") =
          joinLines (entryLines r ++ [[], []]) := by
        rw [joinLines_append _ (entryLines_ne_nil r) _ (by simp)]
        rfl
      rw [hjoin]
      simp only [parseAllEntries]
      rw [parseCachedEntry_wf r hfields _ (by decide),
        ih (fun x hx => hwf x (by simp [hx]))]
      rfl

theorem readCachedDependencies_some (c : Str) :
    readCachedDependencies (some c) =
      match parseAllEntries ((jsSplit c (str ("### "))).drop 1) with
      | some l => l
      | none => [] := rfl

/-- C1 (amended): formatting well-formed records and re-parsing the
document reconstructs, for each record, the same name, the same NPM and
license links, the same (non-empty) description and the same permissiveness
flag — but the timestamp is not reconstructed to calendar-second precision:
the re-read timestamp is the written one truncated at its first colon with
asterisks deleted and the template's leading space retained
(`rereadTimestamp`).  Well-formed means: non-empty trimmed single-line name
without the warning glyph and description, neither mimicking a cache line,
`(`-free single-line links, a single-line timestamp, and no spurious
`"### "` marker in the rendered entry or in the header (an empty
description is reconstructed as the placeholder text — see the
counterexample). -/
theorem C1_round_trip :
    ∀ (ts : Str) (records : List CachedDependencyInfo),
      (∀ r ∈ records, wfRecord r = true) →
      cleanBeforeSepB (str ("### "))
        (reportHeader ts records.length (records.countP (fun r => !r.isPermissive))) = true →
      jsIncludes (reportHeader ts records.length (records.countP (fun r => !r.isPermissive))
        ++ reportFooter) (str ("### ")) = false →
      readCachedDependencies (some (renderReport ts records)) =
        records.map reparsedRecord := by
  intro ts records hwf hclean hinc
  cases records with
  | nil =>
    rw [show renderReport ts [] = reportHeader ts 0 0 ++ reportFooter from by
      unfold renderReport
      simp [joinSep]]
    rw [readCachedDependencies_some]
    rw [jsSplit_all (by decide) (by simpa using hinc)]
    rfl
  | cons r0 rest =>
    rw [renderReport_decompose ts (r0 :: rest) (by simp)]
    rw [readCachedDependencies_some]
    rw [show reportHeader ts (r0 :: rest).length
          ((r0 :: rest).countP (fun r => !r.isPermissive)) ++
          (str ("### ") ++ entriesDoc (r0 :: rest)) =
        reportHeader ts (r0 :: rest).length
          ((r0 :: rest).countP (fun r => !r.isPermissive)) ++
          str ("### ") ++ entriesDoc (r0 :: rest) from by simp [List.append_assoc]]
    rw [jsSplit_emit (by decide) hclean _]
    rw [jsSplit_entriesDoc (r0 :: rest) (by simp) hwf]
    simp only [List.drop_succ_cons, List.drop_zero]
    rw [parseAllEntries_pieces (r0 :: rest) hwf]

/-- A record whose rendering round-trips (apart from the timestamp
transform). -/
def demoRecord : CachedDependencyInfo :=
  { name := str ("demo-pkg"),
    npmLink := str ("https://www.npmjs.com/package/demo-pkg"),
    licenseLink := str ("https://opensource.org/licenses/MIT"),
    description := str ("Demo package"),
    isPermissive := true,
    lastUpdated := str ("20. 11. 2024 0") }

set_option maxRecDepth 10000 in
theorem C1_round_trip_witness :
    wfRecord demoRecord = true ∧
    readCachedDependencies (some (renderReport (str ("g")) [demoRecord])) =
      [demoRecord].map reparsedRecord :=
  ⟨by decide,
   C1_round_trip (str ("g")) [demoRecord] (by decide) (by decide) (by decide)⟩

set_option maxRecDepth 10000 in
/-- C1, counterexample to the claim as stated: a record with an empty
description and the timestamp `1:30`.  Re-parsing the rendered document
returns the placeholder text as the description (not the empty string
written) and the timestamp ` 1` — truncated at the colon, so it cannot
parse to within the same calendar second as `1:30`. -/
theorem C1_counterexample_description_and_timestamp :
    readCachedDependencies (some (renderReport (str ("g"))
      [{ name := str ("a"), npmLink := str ("L"), licenseLink := str ("M"),
         description := [], isPermissive := true, lastUpdated := str ("1:30") }])) =
      [{ name := str ("a"), npmLink := str ("L"), licenseLink := str ("M"),
         description := str ("No description available."), isPermissive := true,
         lastUpdated := str (" 1") }] ∧
    str ("No description available.") ≠ ([] : Str) ∧
    str (" 1") ≠ str ("1:30") := by
  refine ⟨by decide, by decide, by decide⟩

/-- A cached record whose timestamp no parser accepts. -/
def garbageCachedRecord : CachedDependencyInfo :=
  { name := str ("a"), npmLink := str ("L"), licenseLink := str ("M"),
    description := str ("d"), isPermissive := true, lastUpdated := str ("garbage") }

theorem C4_staleness_decision_witness :
    cacheLookup [garbageCachedRecord] (str ("a")) = some garbageCachedRecord ∧
    baseEnv.jsParse garbageCachedRecord.lastUpdated = none ∧
    regexFindDMYH garbageCachedRecord.lastUpdated = none ∧
    0 < baseEnv.oneWeekAgo ∧
    (processDependency baseEnv [garbageCachedRecord] (str ("a"))).usedNetwork = true :=
  ⟨by decide, rfl, by decide, by decide,
   C4_staleness_decision.2.2 baseEnv [garbageCachedRecord] (str ("a")) garbageCachedRecord
     (by decide) rfl (by decide) (by decide)⟩
